import Mathlib

/-!
Verification of the session-scoped intent-resolution engine of the
zana-speech-backend server: the in-memory session store
(internal/store/database.go), the slot-filling merge, ambiguity resolution
and per-intent state machine of handleWithArgs (internal/server/cookies.go),
the chat entry point handleChat, and the GitHub OAuth callback handshake.

Conventions of the embedding:
- Go `time.Time` / `time.Duration` become `Nat` nanosecond ticks; store
  operations that call `time.Now()` / `time.Since` take an explicit `now`.
- Go maps keyed by strings become `String → Option _` functions; the dynamic
  `map[string]any` argument maps of classified intents become association
  lists (`ArgMap`) whose lookup mirrors Go map lookup.
- External collaborators (OpenAI classifier, GitHub MCP client, OAuth
  exchange) are oracles carried in an environment record; their call results
  are inputs of the turn function, exactly as the handler consumes them.
- `strings.TrimSpace` is modelled over ASCII whitespace (`goTrim`).
-/

namespace Zana

/-- Whitespace test for the model of Go strings.TrimSpace (ASCII whitespace:
space, tab, newline, carriage return). -/
def isSpaceChar (c : Char) : Bool :=
  c == ' ' || c == '\t' || c == '\n' || c == '\r'

/-- Trim leading and trailing whitespace characters from a character list. -/
def trimList (l : List Char) : List Char :=
  ((l.dropWhile isSpaceChar).reverse.dropWhile isSpaceChar).reverse

/-- Model of Go strings.TrimSpace. -/
def goTrim (s : String) : String := ⟨trimList s.data⟩

/-- Dynamic argument value of the classifier output
(`map[string]interface{}` in gh.ClassifiedIntent). `num` covers the
`float64` and `int` type assertions the handler performs; `other` is any
other dynamic value (which every assertion in the handler rejects). -/
inductive Value where
  | str (s : String)
  | num (n : Int)
  | other
  deriving DecidableEq

/-- Association-list model of a Go `map[string]any` argument map. -/
abbrev ArgMap := List (String × Value)

/-- Go map lookup `v, ok := m[k]` (first binding wins; `mapSet` keeps lookup
consistent with Go map writes). -/
def ArgMap.find : ArgMap → String → Option Value
  | [], _ => none
  | (k, v) :: rest, key => if key = k then some v else ArgMap.find rest key

/-- Go map write `m[k] = v`: the new binding shadows any old one, which is
lookup-equivalent to the in-place map update. -/
def mapSet (m : ArgMap) (k : String) (v : Value) : ArgMap :=
  (k, v) :: m

/-- The pending-args fill loop of handleWithArgs (cookies.go):
`for k, v := range pArgs { if _, exists := mergedArgs[k]; !exists
{ mergedArgs[k] = v } }`. -/
def fillMissing (mergedArgs pArgs : ArgMap) : ArgMap :=
  pArgs.foldl
    (fun acc kv => if (ArgMap.find acc kv.1).isSome then acc else mapSet acc kv.1 kv.2)
    mergedArgs

/-- store.Message. -/
structure Message where
  Role : String
  Content : String
  deriving DecidableEq

/-- store.PRRef: just enough to resolve a repo from a PR number. -/
structure PRRef where
  Number : Int
  Repository : String
  deriving DecidableEq

/-- github.PR: minimal PR metadata used by the voice flow. -/
structure PR where
  Number : Int
  Title : String
  Author : String
  Status : String
  URL : String
  Repository : String
  deriving DecidableEq

/-- github.Comment (the Go field `Type` is rendered `CType`). -/
structure Comment where
  Author : String
  Body : String
  Timestamp : String
  CType : String
  Path : String
  Line : Int
  deriving DecidableEq

/-- Structured payload attached to a types.IntentResponse, one constructor
per payload shape the handler builds. -/
inductive Payload where
  | nonePayload
  | showPRs (prs : List PR) (kind : String)
  | showComments (repo : String) (prNumber : Int) (comments : List Comment)
  | mergedPR (repo : String) (prNumber : Int) (method : String)
  | clarifyInfo (repo : Option String) (prNumber : Option Int) (reviewId : Option Int)
  deriving DecidableEq

/-- types.IntentResponse (the Go field `Type` is rendered `typ`). -/
structure IntentResponse where
  typ : String
  payload : Payload
  deriving DecidableEq

/-- gh.ClassifiedIntent as consumed by handleWithArgs (the Confidence field
is never read by the handler and is omitted). -/
structure ClassifiedIntent where
  typ : String
  args : ArgMap
  message : String
  deriving DecidableEq

/-- Per-session state as seen by one turn of handleWithArgs: the results of
the store reads (GetPendingIntent, GetLastPRs, GetUsername) and the
conversation history. An expired TTL entry is `none`, matching the lazy
cache-miss semantics proved separately at the MemoryStore level. -/
structure SessionState where
  history : List Message
  pending : Option (String × ArgMap)
  lastPRs : Option (List PRRef)
  username : String
  deriving DecidableEq

/-- Results of the external collaborator calls a single turn can make, plus
the configuration the handler reads. `token` is the getGitHubToken result. -/
structure Env where
  token : String
  defaultRepoOwner : String
  listMine : Except Unit (List PR)
  listReview : Except Unit (List PR)
  comments : Except Unit (List Comment)
  mergeRes : Except Unit Unit

/-- Value and session-store effect of one handleWithArgs turn. -/
structure TurnResult where
  reply : String
  intent : Option IntentResponse
  ok : Bool
  state : SessionState
  deriving DecidableEq

/-- gh.IntentKind. -/
abbrev IntentKind := String

def IntentListMine : IntentKind := "list_prs_mine"

def IntentListReview : IntentKind := "list_prs_review"

/-- Go string type assertion `s, _ := args[k].(string)`. -/
def extractString (args : ArgMap) (k : String) : String :=
  match ArgMap.find args k with
  | some (Value.str s) => s
  | _ => ""

/-- The pr_number extraction of handleWithArgs: float64 assertion, then int
assertion, else zero. -/
def extractPRNumber (args : ArgMap) : Int :=
  match ArgMap.find args "pr_number" with
  | some (Value.num n) => n
  | _ => 0

/-- The review_id extraction of the clarify branch (float64 assertion only). -/
def extractReviewID (args : ArgMap) : Int :=
  match ArgMap.find args "review_id" with
  | some (Value.num n) => n
  | _ => 0

/-- The slot-filling merge at the top of handleWithArgs: redirect an explicit
"clarify" onto the pending type, and fill arguments missing from the fresh
classification from the pending intent of the same (non-empty) type. -/
def mergeWithPending (ciType : String) (ciArgs : ArgMap)
    (pending : Option (String × ArgMap)) : String × ArgMap :=
  match pending with
  | none => (ciType, ciArgs)
  | some (pType, pArgs) =>
    let targetType := if ciType = "clarify" ∧ pType ≠ "" then pType else ciType
    if targetType = pType ∧ targetType ≠ "" then
      (targetType, fillMissing ciArgs pArgs)
    else
      (targetType, ciArgs)

/-- The candidate scan of the ambiguity resolver: repositories of the cached
refs whose number equals the requested one (the `for _, r := range refs`
loop of the get_pr_comments and merge_pr branches). -/
def resolveMatches (refs : List PRRef) (prNumber : Int) : List String :=
  (refs.filter (fun r => r.Number = prNumber)).map (fun r => r.Repository)

/-- Model of Go strings.Contains for a single character. -/
def containsChar (s : String) (c : Char) : Bool :=
  s.data.contains c

/-- Bare-repo expansion: a non-empty repo with no '/' is prefixed with the
session username or, failing that, the configured default repo owner. The
argument `repo` is the already-trimmed repo string. -/
def expandRepo (username defaultRepoOwner repo : String) : String :=
  if repo ≠ "" ∧ containsChar repo '/' = false then
    let owner0 := goTrim username
    let owner := if owner0 = "" then goTrim defaultRepoOwner else owner0
    if owner ≠ "" then owner ++ "/" ++ repo else repo
  else repo

/-- One list item of formatPRListReply: `#%d %s (%s)`. -/
def prItem (p : PR) : String :=
  "#" ++ toString p.Number ++ " " ++ p.Title ++ " (" ++ p.Repository ++ ")"

/-- The first-five listing loop of formatPRListReply. -/
def prListItems (prs : List PR) : String :=
  String.intercalate "; " ((prs.take 5).map prItem)

/-- Server.formatPRListReply. -/
def formatPRListReply (kind : IntentKind) (prs : List PR) : String :=
  if prs.length = 0 then
    if kind = IntentListReview then
      "You have no GitHub pull requests to review at the moment."
    else
      "You have no open pull requests on GitHub."
  else
    let head :=
      if kind = IntentListReview then
        "You have " ++ toString prs.length ++ " GitHub pull request(s) to review. "
      else
        "You have " ++ toString prs.length ++ " GitHub pull request(s). "
    let tail :=
      if 5 < prs.length then "; and " ++ toString (prs.length - 5) ++ " more." else ""
    head ++ prListItems prs ++ tail

/-- The list_prs_mine / list_prs_review branch of handleWithArgs. -/
def listBranch (env : Env) (st : SessionState) (targetType : String) : TurnResult :=
  if goTrim env.token = "" then
    { reply := "Whoops! I need your GitHub connection to fetch your pull requests. Let's connect GitHub first.",
      intent := some ⟨"require_github_auth", Payload.nonePayload⟩, ok := true, state := st }
  else
    match (if targetType = "list_prs_mine" then env.listMine else env.listReview) with
    | Except.error _ =>
      { reply := "I couldn't fetch your pull requests from GitHub right now. This might be a temporary issue with GitHub's API. Try again in a moment?",
        intent := some ⟨"error", Payload.nonePayload⟩, ok := true, state := st }
    | Except.ok prs =>
      let kind : IntentKind :=
        if targetType = "list_prs_review" then IntentListReview else IntentListMine
      let st1 :=
        if 0 < prs.length then
          { st with lastPRs := some (prs.map (fun p => PRRef.mk p.Number p.Repository)) }
        else st
      let st2 := { st1 with pending := none }
      let listKind := if kind = IntentListReview then "review" else "mine"
      { reply := formatPRListReply kind prs,
        intent := some ⟨"show_prs", Payload.showPRs prs listKind⟩, ok := true, state := st2 }

/-- Tail of the get_pr_comments branch after repo resolution: the missing-arg
clarifications, the token check and the provider call. The Go code re-trims
the repo here (cookies.go line `repo = strings.TrimSpace(repo)` before the
missing-arg checks). -/
def finishGetComments (env : Env) (st : SessionState) (mergedArgs : ArgMap)
    (repoIn : String) (prNumber : Int) : TurnResult :=
  let repo := goTrim repoIn
  if repo = "" ∧ prNumber ≤ 0 then
    { reply := "Which repository and PR number should I look at?",
      intent := some ⟨"clarify", Payload.nonePayload⟩, ok := true,
      state := { st with pending := some ("get_pr_comments", mergedArgs) } }
  else if repo = "" then
    { reply := "Which repo is PR " ++ toString prNumber ++ " in?",
      intent := some ⟨"clarify", Payload.nonePayload⟩, ok := true,
      state := { st with pending := some ("get_pr_comments", mergedArgs) } }
  else if prNumber ≤ 0 then
    { reply := "Which PR number in " ++ repo ++ "?",
      intent := some ⟨"clarify", Payload.nonePayload⟩, ok := true,
      state := { st with pending := some ("get_pr_comments", mergedArgs) } }
  else if goTrim env.token = "" then
    { reply := "I need your GitHub connection to fetch PR comments. Let's connect GitHub first.",
      intent := some ⟨"require_github_auth", Payload.nonePayload⟩, ok := true, state := st }
  else
    match env.comments with
    | Except.error _ =>
      { reply := "I couldn't retrieve the PR comments from GitHub. This could be a temporary GitHub API issue or the PR might not exist. Mind trying again?",
        intent := some ⟨"error", Payload.nonePayload⟩, ok := true, state := st }
    | Except.ok comments =>
      { reply := "I found " ++ toString comments.length ++ " comment(s) on GitHub pull request " ++ repo ++ "#" ++ toString prNumber ++ ".",
        intent := some ⟨"show_comments", Payload.showComments repo prNumber comments⟩,
        ok := true, state := { st with pending := none } }

/-- The get_pr_comments branch of handleWithArgs: extraction, bare-repo
expansion, ambiguity resolution against the cached refs, then
`finishGetComments`. -/
def getCommentsBranch (env : Env) (st : SessionState) (mergedArgs : ArgMap) : TurnResult :=
  let repo0 := extractString mergedArgs "repo"
  let prNumber := extractPRNumber mergedArgs
  let repo1 := goTrim repo0
  let repo2 := expandRepo st.username env.defaultRepoOwner repo1
  let repo3 := goTrim repo2
  if repo3 = "" ∧ 0 < prNumber then
    match st.lastPRs with
    | some refs =>
      match resolveMatches refs prNumber with
      | [only] => finishGetComments env st mergedArgs only prNumber
      | [] => finishGetComments env st mergedArgs repo3 prNumber
      | ms =>
        let joined := String.intercalate " or " ms
        let args2 := mapSet mergedArgs "pr_number" (Value.num prNumber)
        { reply := "Did you mean PR " ++ toString prNumber ++ " in " ++ joined ++ "?",
          intent := some ⟨"clarify", Payload.nonePayload⟩, ok := true,
          state := { st with pending := some ("get_pr_comments", args2) } }
    | none => finishGetComments env st mergedArgs repo3 prNumber
  else finishGetComments env st mergedArgs repo3 prNumber

/-- Tail of the merge_pr branch after repo resolution (the merge_pr branch
does not re-trim the repo before its missing-arg checks). -/
def finishMerge (env : Env) (st : SessionState) (mergedArgs : ArgMap)
    (repo : String) (prNumber : Int) (method : String) : TurnResult :=
  if repo = "" ∧ prNumber ≤ 0 then
    { reply := "Which repo and PR should I merge?",
      intent := some ⟨"clarify", Payload.nonePayload⟩, ok := true,
      state := { st with pending := some ("merge_pr", mergedArgs) } }
  else if repo = "" then
    { reply := "Which repo is PR " ++ toString prNumber ++ " in?",
      intent := some ⟨"clarify", Payload.nonePayload⟩, ok := true,
      state := { st with pending := some ("merge_pr", mergedArgs) } }
  else if prNumber ≤ 0 then
    { reply := "Which PR number in " ++ repo ++ "?",
      intent := some ⟨"clarify", Payload.nonePayload⟩, ok := true,
      state := { st with pending := some ("merge_pr", mergedArgs) } }
  else if goTrim env.token = "" then
    { reply := "I need your GitHub connection to merge pull requests. Let's connect GitHub first.",
      intent := some ⟨"require_github_auth", Payload.nonePayload⟩, ok := true, state := st }
  else
    match env.mergeRes with
    | Except.error _ =>
      { reply := "I couldn't merge the pull request on GitHub. This could be due to failing checks, merge conflicts, or insufficient permissions. Would you like me to check the PR status?",
        intent := some ⟨"error", Payload.nonePayload⟩, ok := true, state := st }
    | Except.ok _ =>
      { reply := "Successfully merged GitHub pull request " ++ repo ++ "#" ++ toString prNumber ++ " using " ++ method ++ " method.",
        intent := some ⟨"merged", Payload.mergedPR repo prNumber method⟩,
        ok := true, state := { st with pending := none } }

/-- The merge_pr branch of handleWithArgs. -/
def mergeBranch (env : Env) (st : SessionState) (mergedArgs : ArgMap) : TurnResult :=
  let repo0 := extractString mergedArgs "repo"
  let prNumber := extractPRNumber mergedArgs
  let method0 := (goTrim (extractString mergedArgs "merge_method")).toLower
  let method := if method0 = "" then "merge" else method0
  let repo1 := goTrim repo0
  let repo2 := expandRepo st.username env.defaultRepoOwner repo1
  if repo2 = "" ∧ 0 < prNumber then
    match st.lastPRs with
    | some refs =>
      match resolveMatches refs prNumber with
      | [only] => finishMerge env st mergedArgs only prNumber method
      | [] => finishMerge env st mergedArgs repo2 prNumber method
      | ms =>
        let joined := String.intercalate " or " ms
        let args2 := mapSet mergedArgs "pr_number" (Value.num prNumber)
        { reply := "Did you mean PR " ++ toString prNumber ++ " in " ++ joined ++ "?",
          intent := some ⟨"clarify", Payload.nonePayload⟩, ok := true,
          state := { st with pending := some ("merge_pr", args2) } }
    | none => finishMerge env st mergedArgs repo2 prNumber method
  else finishMerge env st mergedArgs repo2 prNumber method

/-- The clarify branch of handleWithArgs: playful message, payload of known
slots, and a TTL-refreshing merge of the payload into any pending intent. -/
def clarifyBranch (st : SessionState) (ci : ClassifiedIntent) (mergedArgs : ArgMap) :
    TurnResult :=
  let msg0 := goTrim ci.message
  let msg :=
    if msg0 = "" then
      "Mind giving me a tiny bit more detail? I promise I listen better than your rubber duck."
    else msg0
  let repo := goTrim (extractString mergedArgs "repo")
  let prNumber := extractPRNumber mergedArgs
  let reviewID := extractReviewID mergedArgs
  let payload := Payload.clarifyInfo
    (if repo = "" then none else some repo)
    (if 0 < prNumber then some prNumber else none)
    (if 0 < reviewID then some reviewID else none)
  let st2 :=
    match st.pending with
    | some (pType, pArgs) =>
      if pType ≠ "" then
        let a1 := if repo = "" then pArgs else mapSet pArgs "repo" (Value.str repo)
        let a2 := if 0 < prNumber then mapSet a1 "prNumber" (Value.num prNumber) else a1
        let a3 := if 0 < reviewID then mapSet a2 "reviewId" (Value.num reviewID) else a2
        { st with pending := some (pType, a3) }
      else st
    | none => st
  { reply := msg, intent := some ⟨"clarify", payload⟩, ok := true, state := st2 }

/-- The not_implemented / unknown branch of handleWithArgs: graceful decline
and clearing of any pending intent. -/
def notImplementedBranch (st : SessionState) (ci : ClassifiedIntent) : TurnResult :=
  let msg0 := goTrim ci.message
  let msg := if msg0 = "" then "I haven't learned that trick yet — but I'm practicing!" else msg0
  { reply := msg, intent := some ⟨"not_implemented", Payload.nonePayload⟩, ok := true,
    state := { st with pending := none } }

/-- The switch of handleWithArgs on the effective intent type, taking the
merge result (targetType, mergedArgs) as `tm`. -/
def routeIntent (env : Env) (st : SessionState) (ci : ClassifiedIntent)
    (tm : String × ArgMap) : TurnResult :=
  if tm.1 = "list_prs_mine" ∨ tm.1 = "list_prs_review" then
    listBranch env st tm.1
  else if tm.1 = "get_pr_comments" then
    getCommentsBranch env st tm.2
  else if tm.1 = "merge_pr" then
    mergeBranch env st tm.2
  else if tm.1 = "clarify" then
    clarifyBranch st ci tm.2
  else if tm.1 = "not_implemented" ∨ tm.1 = "unknown" then
    notImplementedBranch st ci
  else
    { reply := "", intent := none, ok := false, state := st }

/-- Server.handleWithArgs: merge with any pending intent, then route on the
effective intent type. -/
def handleWithArgs (env : Env) (st : SessionState) (ci : ClassifiedIntent) : TurnResult :=
  routeIntent env st ci (mergeWithPending ci.typ ci.args st.pending)

/-- MemoryStore.trimLocked: drop from the head down to maxMessages entries
(no trimming for a non-positive bound). -/
def trimLocked (maxMessages : Int) (msgs : List Message) : List Message :=
  if maxMessages ≤ 0 then msgs
  else if maxMessages < (msgs.length : Int) then msgs.drop (msgs.length - maxMessages.toNat)
  else msgs

/-- History append with the bound of the server store (NewMemoryStore(40) in
NewServer). -/
def appendHistory (st : SessionState) (role content : String) : SessionState :=
  { st with history := trimLocked 40 (st.history ++ [Message.mk role content]) }

/-- types.ChatRequest (the sessionId field is transport plumbing). -/
structure ChatRequest where
  message : String
  system : String
  deriving DecidableEq

/-- Outcome of Server.handleChat: either an HTTP error written by writeError
or a ChatResponse, together with the resulting session state. -/
inductive ChatOutcome where
  | httpError (code : Nat) (msg : String) (st : SessionState)
  | response (reply : String) (intent : Option IntentResponse) (st : SessionState)
  deriving DecidableEq

/-- Server.handleChat, with the classifier outcome passed as an oracle
(`none` models a classification failure: ClassifyChat error or nil intent). -/
def handleChat (env : Env) (st : SessionState) (req : ChatRequest)
    (classified : Option ClassifiedIntent) : ChatOutcome :=
  if goTrim req.message = "" then ChatOutcome.httpError 400 "message is required" st
  else
    let st1 := if req.system ≠ "" then appendHistory st "system" req.system else st
    let st2 := appendHistory st1 "user" req.message
    if goTrim env.token = "" then
      ChatOutcome.response
        "Please connect your GitHub account to use this application. This service helps you manage GitHub pull requests - fetching, listing, merging, and viewing PR comments."
        (some ⟨"require_github_auth", Payload.nonePayload⟩) st2
    else
      match classified with
      | none =>
        ChatOutcome.httpError 500
          "I'm having trouble understanding your request right now. Please try again." st2
      | some ci =>
        let r := handleWithArgs env st2 ci
        if r.ok then
          ChatOutcome.response r.reply r.intent (appendHistory r.state "assistant" r.reply)
        else
          ChatOutcome.httpError 500
            "I'm having trouble understanding your request right now. Please try again." r.state

/-- store.PendingIntent (the Go field `Type` is rendered `typ`; `UpdatedAt`
is a Nat tick). -/
structure PendingIntent where
  typ : String
  args : ArgMap
  updatedAt : Nat
  deriving DecidableEq

/-- store.LastPRsCache. -/
structure LastPRsCache where
  prs : List PRRef
  updatedAt : Nat
  deriving DecidableEq

/-- store.MemoryStore: Go maps become option-valued functions. -/
structure MemoryStore where
  sessions : String → List Message
  maxMessages : Int
  oauthStateBySession : String → Option String
  usernameBySession : String → Option String
  sessionByOAuthState : String → Option String
  lastPRsBySession : String → Option LastPRsCache
  pendingBySession : String → Option PendingIntent

/-- store.NewMemoryStore. -/
def NewMemoryStore (maxMessages : Int) : MemoryStore :=
  { sessions := fun _ => []
    maxMessages := maxMessages
    oauthStateBySession := fun _ => none
    usernameBySession := fun _ => none
    sessionByOAuthState := fun _ => none
    lastPRsBySession := fun _ => none
    pendingBySession := fun _ => none }

/-- MemoryStore.Append followed by the trimLocked call. -/
def MemoryStore.Append (m : MemoryStore) (sessionID : String) (msg : Message) : MemoryStore :=
  { m with sessions := fun s =>
      if s = sessionID then trimLocked m.maxMessages (m.sessions sessionID ++ [msg])
      else m.sessions s }

/-- MemoryStore.Get (the Go copy of the slice is semantically the identity). -/
def MemoryStore.Get (m : MemoryStore) (sessionID : String) : List Message :=
  m.sessions sessionID

/-- MemoryStore.Set. -/
def MemoryStore.Set (m : MemoryStore) (sessionID : String) (msgs : List Message) : MemoryStore :=
  { m with sessions := fun s =>
      if s = sessionID then trimLocked m.maxMessages msgs else m.sessions s }

/-- A sequence of Append calls for one session. -/
def appendAll (m : MemoryStore) (sessionID : String) (msgs : List Message) : MemoryStore :=
  msgs.foldl (fun acc msg => acc.Append sessionID msg) m

/-- MemoryStore.SetOAuthState: store both directions of the id↔state link. -/
def MemoryStore.SetOAuthState (m : MemoryStore) (sessionID state : String) : MemoryStore :=
  { m with
    oauthStateBySession := fun s =>
      if s = sessionID then some state else m.oauthStateBySession s
    sessionByOAuthState := fun t =>
      if t = state then some sessionID else m.sessionByOAuthState t }

/-- MemoryStore.GetOAuthState (Go map read defaults to ""). -/
def MemoryStore.GetOAuthState (m : MemoryStore) (sessionID : String) : String :=
  (m.oauthStateBySession sessionID).getD ""

/-- MemoryStore.ClearOAuthState: remove both directions of the link, when a
state is recorded for the session. -/
def MemoryStore.ClearOAuthState (m : MemoryStore) (sessionID : String) : MemoryStore :=
  match m.oauthStateBySession sessionID with
  | some st =>
    { m with
      sessionByOAuthState := fun t => if t = st then none else m.sessionByOAuthState t
      oauthStateBySession := fun s => if s = sessionID then none else m.oauthStateBySession s }
  | none => m

/-- MemoryStore.SetUsername. -/
def MemoryStore.SetUsername (m : MemoryStore) (sessionID username : String) : MemoryStore :=
  { m with usernameBySession := fun s =>
      if s = sessionID then some username else m.usernameBySession s }

/-- MemoryStore.GetUsername (Go map read defaults to ""). -/
def MemoryStore.GetUsername (m : MemoryStore) (sessionID : String) : String :=
  (m.usernameBySession sessionID).getD ""

/-- MemoryStore.GetSessionByOAuthState: a pure lookup that returns the store
unchanged (contrast with the lazily-deleting TTL reads). -/
def MemoryStore.GetSessionByOAuthState (m : MemoryStore) (state : String) : String × MemoryStore :=
  ((m.sessionByOAuthState state).getD "", m)

/-- lastPRsTTL = 7 * time.Minute, in nanosecond ticks. -/
def lastPRsTTL : Nat := 7 * 60 * 1000000000

/-- pendingTTL = 7 * time.Minute, in nanosecond ticks. -/
def pendingTTL : Nat := 7 * 60 * 1000000000

/-- MemoryStore.SetLastPRs (the Go copy of the slice is the identity);
`now` is the time.Now() of the call. -/
def MemoryStore.SetLastPRs (m : MemoryStore) (sessionID : String) (prs : List PRRef)
    (now : Nat) : MemoryStore :=
  { m with lastPRsBySession := fun s =>
      if s = sessionID then some ⟨prs, now⟩ else m.lastPRsBySession s }

/-- MemoryStore.GetLastPRs: within TTL returns the cached refs; an expired
entry is deleted and reported as a miss. -/
def MemoryStore.GetLastPRs (m : MemoryStore) (sessionID : String) (now : Nat) :
    (List PRRef × Bool) × MemoryStore :=
  match m.lastPRsBySession sessionID with
  | none => (([], false), m)
  | some cache =>
    if lastPRsTTL < now - cache.updatedAt then
      (([], false),
       { m with lastPRsBySession := fun s =>
           if s = sessionID then none else m.lastPRsBySession s })
    else ((cache.prs, true), m)

/-- MemoryStore.SetPendingIntent (the Go copy of the args map is the
identity); setting replaces any previous pending intent. -/
def MemoryStore.SetPendingIntent (m : MemoryStore) (sessionID typ : String) (args : ArgMap)
    (now : Nat) : MemoryStore :=
  { m with pendingBySession := fun s =>
      if s = sessionID then some ⟨typ, args, now⟩ else m.pendingBySession s }

/-- MemoryStore.GetPendingIntent: within TTL returns the pending intent; an
expired entry is deleted and reported as a miss. -/
def MemoryStore.GetPendingIntent (m : MemoryStore) (sessionID : String) (now : Nat) :
    (String × ArgMap × Bool) × MemoryStore :=
  match m.pendingBySession sessionID with
  | none => (("", [], false), m)
  | some p =>
    if pendingTTL < now - p.updatedAt then
      (("", [], false),
       { m with pendingBySession := fun s =>
           if s = sessionID then none else m.pendingBySession s })
    else ((p.typ, p.args, true), m)

/-- MemoryStore.ClearPendingIntent. -/
def MemoryStore.ClearPendingIntent (m : MemoryStore) (sessionID : String) : MemoryStore :=
  { m with pendingBySession := fun s =>
      if s = sessionID then none else m.pendingBySession s }

/-- Results of the external calls handleGitHubCallback makes: the OAuth code
exchange, the username fetch ("" models a fetch failure) and the
database/file persistence of the token. -/
structure CallbackEnv where
  exchangeOk : Bool
  username : String
  saveOk : Bool
  frontendURL : String

/-- HTTP outcome of handleGitHubCallback. -/
inductive CallbackResult where
  | badRequest (msg : String)
  | gatewayError (msg : String)
  | serverError (msg : String)
  | redirect (url : String)
  deriving DecidableEq

/-- Server.handleGitHubCallback: validate the state token, exchange the
code, persist the credential, record the username, and clear the handshake
state (single-use token). -/
def handleGitHubCallback (env : CallbackEnv) (m : MemoryStore) (state code : String) :
    CallbackResult × MemoryStore :=
  if state = "" ∨ code = "" then (CallbackResult.badRequest "missing state or code", m)
  else
    let sid := (m.GetSessionByOAuthState state).1
    if sid = "" ∨ m.GetOAuthState sid ≠ state then
      (CallbackResult.badRequest "invalid oauth state", m)
    else if env.exchangeOk = false then
      (CallbackResult.gatewayError "token exchange failed", m)
    else if env.username = "" then
      (CallbackResult.serverError "failed to fetch GitHub username", m)
    else if env.saveOk = false then
      (CallbackResult.serverError "failed to save GitHub auth", m)
    else
      let m1 := m.SetUsername sid env.username
      let m2 := m1.ClearOAuthState sid
      (CallbackResult.redirect (env.frontendURL ++ "?githubAuth=success"), m2)

/-- Repository finally passed to the action provider by a successful
dispatch, read back from the structured payload. -/
def TurnResult.dispatchedRepo (t : TurnResult) : Option String :=
  match t.intent with
  | some ⟨_, Payload.showComments repo _ _⟩ => some repo
  | some ⟨_, Payload.mergedPR repo _ _⟩ => some repo
  | _ => none

/-! Lookup lemmas for the Go-map model. -/

theorem find_mapSet (m : ArgMap) (k key : String) (v : Value) :
    ArgMap.find (mapSet m k v) key = if key = k then some v else ArgMap.find m key := rfl

theorem find_fillMissing_of_isSome (p : ArgMap) : ∀ (m : ArgMap) (k : String),
    (ArgMap.find m k).isSome = true →
    ArgMap.find (fillMissing m p) k = ArgMap.find m k := by
  induction p with
  | nil => intro m k _; rfl
  | cons kv rest ih =>
    intro m k h
    obtain ⟨k1, v1⟩ := kv
    show ArgMap.find
      (fillMissing (if (ArgMap.find m k1).isSome then m else mapSet m k1 v1) rest) k = _
    by_cases h1 : (ArgMap.find m k1).isSome = true
    · rw [if_pos h1, ih m k h]
    · rw [if_neg h1]
      by_cases hk : k = k1
      · exact absurd (hk ▸ h) h1
      · have hfind : ArgMap.find (mapSet m k1 v1) k = ArgMap.find m k := by
          rw [find_mapSet, if_neg hk]
        rw [ih (mapSet m k1 v1) k (hfind ▸ h), hfind]

theorem find_fillMissing_of_none (p : ArgMap) : ∀ (m : ArgMap) (k : String),
    ArgMap.find m k = none →
    ArgMap.find (fillMissing m p) k = ArgMap.find p k := by
  induction p with
  | nil => intro m k h; simpa [fillMissing, ArgMap.find] using h
  | cons kv rest ih =>
    intro m k h
    obtain ⟨k1, v1⟩ := kv
    show ArgMap.find
      (fillMissing (if (ArgMap.find m k1).isSome then m else mapSet m k1 v1) rest) k = _
    by_cases h1 : (ArgMap.find m k1).isSome = true
    · rw [if_pos h1]
      have hk : k ≠ k1 := by
        intro hkk; rw [← hkk, h] at h1; simp at h1
      rw [ih m k h]
      simp [ArgMap.find, hk]
    · rw [if_neg h1]
      by_cases hk : k = k1
      · subst hk
        have hfind : ArgMap.find (mapSet m k v1) k = some v1 := by
          rw [find_mapSet, if_pos rfl]
        rw [find_fillMissing_of_isSome rest (mapSet m k v1) k (by rw [hfind]; rfl), hfind]
        simp [ArgMap.find]
      · have hfind : ArgMap.find (mapSet m k1 v1) k = none := by
          rw [find_mapSet, if_neg hk, h]
        rw [ih (mapSet m k1 v1) k hfind]
        simp [ArgMap.find, hk]

/-! Lemmas about the TrimSpace model. -/

theorem dropWhile_head_false {p : Char → Bool} :
    ∀ {l a t}, List.dropWhile p l = a :: t → p a = false := by
  intro l
  induction l with
  | nil => intro a t h; simp [List.dropWhile] at h
  | cons b s ih =>
    intro a t h
    by_cases hb : p b = true
    · exact ih (by simpa [List.dropWhile_cons, hb] using h)
    · have hb' : p b = false := by simpa using hb
      rw [List.dropWhile_cons, hb'] at h
      simp only [Bool.false_eq_true, if_false] at h
      cases h
      exact hb'

theorem dropWhile_dropWhile {p : Char → Bool} (l : List Char) :
    List.dropWhile p (List.dropWhile p l) = List.dropWhile p l := by
  cases h : List.dropWhile p l with
  | nil => rfl
  | cons a t =>
    have ha := dropWhile_head_false h
    simp [List.dropWhile_cons, ha]

theorem dropWhile_append_of_fix {p : Char → Bool} {l m : List Char}
    (hl : List.dropWhile p l = l) (hm : List.dropWhile p m = m) :
    List.dropWhile p (l ++ m) = l ++ m := by
  cases l with
  | nil => simpa using hm
  | cons x xs =>
    have hx : p x = false := dropWhile_head_false hl
    simp [List.dropWhile_cons, hx]

theorem trimList_drop_left (l : List Char) :
    List.dropWhile isSpaceChar (trimList l) = trimList l := by
  have key : ∀ L : List Char, List.dropWhile isSpaceChar L = L →
      List.dropWhile isSpaceChar (List.dropWhile isSpaceChar L.reverse).reverse =
        (List.dropWhile isSpaceChar L.reverse).reverse := by
    intro L hL
    cases hr : (List.dropWhile isSpaceChar L.reverse).reverse with
    | nil => simp [hr]
    | cons a t =>
      have hsplit : List.takeWhile isSpaceChar L.reverse ++
          List.dropWhile isSpaceChar L.reverse = L.reverse :=
        List.takeWhile_append_dropWhile ..
      have hL1 : L = (List.dropWhile isSpaceChar L.reverse).reverse ++
          (List.takeWhile isSpaceChar L.reverse).reverse := by
        have h2 := congrArg List.reverse hsplit
        rw [List.reverse_append, List.reverse_reverse] at h2
        exact h2.symm
      rw [hr] at hL1
      have ha : isSpaceChar a = false := by
        apply dropWhile_head_false
          (l := L) (t := t ++ (List.takeWhile isSpaceChar L.reverse).reverse)
        rw [hL]
        simpa using hL1
      simp [List.dropWhile_cons, ha]
  show List.dropWhile isSpaceChar
      (List.dropWhile isSpaceChar (List.dropWhile isSpaceChar l).reverse).reverse = _
  exact key (List.dropWhile isSpaceChar l) (dropWhile_dropWhile l)

theorem trimList_drop_right (l : List Char) :
    List.dropWhile isSpaceChar (trimList l).reverse = (trimList l).reverse := by
  have h : (trimList l).reverse =
      List.dropWhile isSpaceChar (List.dropWhile isSpaceChar l).reverse :=
    List.reverse_reverse _
  rw [h]
  exact dropWhile_dropWhile _

theorem trimList_idem (l : List Char) : trimList (trimList l) = trimList l := by
  show ((List.dropWhile isSpaceChar (trimList l)).reverse.dropWhile isSpaceChar).reverse = _
  rw [trimList_drop_left l]
  have h := trimList_drop_right l
  rw [h, List.reverse_reverse]

theorem data_goTrim (s : String) : (goTrim s).data = trimList s.data := rfl

theorem goTrim_goTrim (s : String) : goTrim (goTrim s) = goTrim s := by
  unfold goTrim
  exact congrArg String.mk (trimList_idem s.data)

theorem trimList_append_mid (a b : List Char) {c : Char} (hc : isSpaceChar c = false)
    (ha : List.dropWhile isSpaceChar a = a)
    (hb : List.dropWhile isSpaceChar b.reverse = b.reverse) :
    trimList (a ++ c :: b) = a ++ c :: b := by
  have hcb : List.dropWhile isSpaceChar (c :: b) = c :: b := by
    simp [List.dropWhile_cons, hc]
  have h1 : List.dropWhile isSpaceChar (a ++ c :: b) = a ++ c :: b :=
    dropWhile_append_of_fix ha hcb
  have hrev : (a ++ c :: b).reverse = b.reverse ++ c :: a.reverse := by
    simp
  have hca : List.dropWhile isSpaceChar (c :: a.reverse) = c :: a.reverse := by
    simp [List.dropWhile_cons, hc]
  have h2 : List.dropWhile isSpaceChar (a ++ c :: b).reverse = (a ++ c :: b).reverse := by
    rw [hrev]
    exact dropWhile_append_of_fix hb hca
  unfold trimList
  rw [h1, h2, List.reverse_reverse]

theorem goTrim_concat (u r : String) :
    goTrim (goTrim u ++ "/" ++ goTrim r) = goTrim u ++ "/" ++ goTrim r := by
  have hdata : (goTrim u ++ "/" ++ goTrim r).data =
      trimList u.data ++ '/' :: trimList r.data := by
    show (trimList u.data ++ ['/']) ++ trimList r.data = _
    simp
  have hc : isSpaceChar '/' = false := rfl
  have ha : List.dropWhile isSpaceChar (trimList u.data) = trimList u.data :=
    trimList_drop_left u.data
  have hb : List.dropWhile isSpaceChar (trimList r.data).reverse =
      (trimList r.data).reverse := trimList_drop_right r.data
  show String.mk (trimList (goTrim u ++ "/" ++ goTrim r).data) = _
  rw [hdata, trimList_append_mid _ _ hc ha hb]
  exact congrArg String.mk hdata.symm

theorem goTrim_empty : goTrim "" = "" := rfl

theorem goTrim_ne_empty_of_concat (u r : String) : goTrim u ++ "/" ++ goTrim r ≠ "" := by
  intro h
  have hdata := congrArg String.data h
  rw [show (goTrim u ++ "/" ++ goTrim r).data =
      (trimList u.data ++ ['/']) ++ trimList r.data from rfl] at hdata
  simp at hdata

/-! Characterizations of the slot-filling merge. -/

theorem mergeWithPending_none (ciType : String) (ciArgs : ArgMap) :
    mergeWithPending ciType ciArgs none = (ciType, ciArgs) := rfl

theorem mergeWithPending_fst (ciType pType : String) (ciArgs pArgs : ArgMap) :
    (mergeWithPending ciType ciArgs (some (pType, pArgs))).1 =
      if ciType = "clarify" ∧ pType ≠ "" then pType else ciType := by
  show (if (if ciType = "clarify" ∧ pType ≠ "" then pType else ciType) = pType ∧
        (if ciType = "clarify" ∧ pType ≠ "" then pType else ciType) ≠ "" then
      ((if ciType = "clarify" ∧ pType ≠ "" then pType else ciType), fillMissing ciArgs pArgs)
    else
      ((if ciType = "clarify" ∧ pType ≠ "" then pType else ciType), ciArgs)).1 =
    if ciType = "clarify" ∧ pType ≠ "" then pType else ciType
  split <;> (split <;> rfl)

theorem mergeWithPending_snd_of_fst_eq (ciType pType : String) (ciArgs pArgs : ArgMap)
    (hp : pType ≠ "")
    (h : (mergeWithPending ciType ciArgs (some (pType, pArgs))).1 = pType) :
    (mergeWithPending ciType ciArgs (some (pType, pArgs))).2 = fillMissing ciArgs pArgs := by
  have ht : (if ciType = "clarify" ∧ pType ≠ "" then pType else ciType) = pType :=
    (mergeWithPending_fst ciType pType ciArgs pArgs).symm.trans h
  show (if (if ciType = "clarify" ∧ pType ≠ "" then pType else ciType) = pType ∧
        (if ciType = "clarify" ∧ pType ≠ "" then pType else ciType) ≠ "" then
      ((if ciType = "clarify" ∧ pType ≠ "" then pType else ciType), fillMissing ciArgs pArgs)
    else
      ((if ciType = "clarify" ∧ pType ≠ "" then pType else ciType), ciArgs)).2 =
    fillMissing ciArgs pArgs
  rw [if_pos ⟨ht, by rw [ht]; exact hp⟩]

/-- C1: for a session holding an unexpired pending intent (pType, pArgs) —
pending intents stored by the handler always carry a non-empty type — and a
fresh classification (type, args): an explicit "clarify" is redirected onto
the pending type; and whenever the effective type equals the pending type,
the merged arguments keep every newly classified value and fall back to the
pending value exactly on the keys the new classification misses. -/
theorem merge_slot_filling (ciType pType : String) (ciArgs pArgs : ArgMap)
    (hp : pType ≠ "") :
    (ciType = "clarify" →
      (mergeWithPending ciType ciArgs (some (pType, pArgs))).1 = pType) ∧
    ((mergeWithPending ciType ciArgs (some (pType, pArgs))).1 = pType →
      ∀ k : String,
        (∀ v, ArgMap.find ciArgs k = some v →
          ArgMap.find (mergeWithPending ciType ciArgs (some (pType, pArgs))).2 k = some v) ∧
        (ArgMap.find ciArgs k = none →
          ArgMap.find (mergeWithPending ciType ciArgs (some (pType, pArgs))).2 k =
            ArgMap.find pArgs k)) := by
  constructor
  · intro hclar
    rw [mergeWithPending_fst, if_pos ⟨hclar, hp⟩]
  · intro heq k
    rw [mergeWithPending_snd_of_fst_eq ciType pType ciArgs pArgs hp heq]
    constructor
    · intro v hv
      rw [find_fillMissing_of_isSome pArgs ciArgs k (by rw [hv]; rfl), hv]
    · intro hnone
      exact find_fillMissing_of_none pArgs ciArgs k hnone

/-- Witness for C1 at a concrete clarify answer merged into a pending
get_pr_comments intent. -/
theorem merge_slot_filling_witness :
    ("get_pr_comments" : String) ≠ "" ∧
    (mergeWithPending "clarify" [("repo", Value.str "acme/widgets")]
      (some ("get_pr_comments", [("pr_number", Value.num 5)]))).1 = "get_pr_comments" ∧
    ArgMap.find (mergeWithPending "clarify" [("repo", Value.str "acme/widgets")]
      (some ("get_pr_comments", [("pr_number", Value.num 5)]))).2 "pr_number" =
      some (Value.num 5) ∧
    ArgMap.find (mergeWithPending "clarify" [("repo", Value.str "acme/widgets")]
      (some ("get_pr_comments", [("pr_number", Value.num 5)]))).2 "repo" =
      some (Value.str "acme/widgets") := by
  have h := merge_slot_filling "clarify" "get_pr_comments"
    [("repo", Value.str "acme/widgets")] [("pr_number", Value.num 5)] (by decide)
  have hfst := h.1 rfl
  refine ⟨by decide, hfst, ?_, ?_⟩
  · rw [(h.2 hfst "pr_number").2 rfl]
    rfl
  · exact (h.2 hfst "repo").1 (Value.str "acme/widgets") rfl

/-! History bound: Append / trimLocked / Get. -/

theorem trimLocked_coe (b : Nat) (hb : 0 < b) (l : List Message) :
    trimLocked (b : Int) l = if b < l.length then l.drop (l.length - b) else l := by
  unfold trimLocked
  rw [if_neg (by exact_mod_cast Nat.not_le.mpr hb)]
  by_cases h : b < l.length
  · rw [if_pos (by exact_mod_cast h), if_pos h]
    simp
  · rw [if_neg (by exact_mod_cast h), if_neg h]

theorem foldl_trimLocked_append (b : Nat) (hb : 0 < b) :
    ∀ (msgs acc : List Message), acc.length ≤ b →
      msgs.foldl (fun h msg => trimLocked (b : Int) (h ++ [msg])) acc =
        (acc ++ msgs).drop (acc.length + msgs.length - b) := by
  intro msgs
  induction msgs with
  | nil =>
    intro acc hacc
    simp [Nat.sub_eq_zero_of_le hacc]
  | cons msg rest ih =>
    intro acc hacc
    show rest.foldl (fun h msg => trimLocked (b : Int) (h ++ [msg]))
        (trimLocked (b : Int) (acc ++ [msg])) = _
    rw [trimLocked_coe b hb]
    by_cases hlen : b < (acc ++ [msg]).length
    · have hab : acc.length = b := by
        simp only [List.length_append, List.length_singleton] at hlen
        omega
      rw [if_pos hlen]
      have hlen2 : ((acc ++ [msg]).drop ((acc ++ [msg]).length - b)).length ≤ b := by
        rw [List.length_drop]
        omega
      rw [ih _ hlen2]
      have hX : (acc ++ [msg]).length - b = 1 := by
        simp only [List.length_append, List.length_singleton]
        omega
      rw [hX]
      have hone : (1 : Nat) ≤ (acc ++ [msg]).length := by
        simp only [List.length_append, List.length_singleton]
        omega
      rw [← List.drop_append_of_le_length hone, List.drop_drop]
      rw [show (acc ++ [msg]) ++ rest = acc ++ msg :: rest by simp]
      congr 1
      simp only [List.length_drop, List.length_append, List.length_singleton,
        List.length_cons, List.length_nil]
      omega
    · rw [if_neg hlen]
      have hlen' : acc.length + 1 ≤ b := by
        simp only [List.length_append, List.length_singleton] at hlen
        omega
      have hlen2 : (acc ++ [msg]).length ≤ b := by
        simp only [List.length_append, List.length_singleton]
        omega
      rw [ih _ hlen2]
      rw [show (acc ++ [msg]) ++ rest = acc ++ msg :: rest by simp]
      congr 1
      simp only [List.length_append, List.length_singleton, List.length_cons,
        List.length_nil]
      omega

theorem appendAll_cons (m : MemoryStore) (sid : String) (msg : Message)
    (rest : List Message) :
    appendAll m sid (msg :: rest) = appendAll (m.Append sid msg) sid rest := rfl

theorem Append_sessions_self (m : MemoryStore) (sid : String) (msg : Message) :
    (m.Append sid msg).sessions sid = trimLocked m.maxMessages (m.sessions sid ++ [msg]) := by
  simp [MemoryStore.Append]

theorem Append_maxMessages (m : MemoryStore) (sid : String) (msg : Message) :
    (m.Append sid msg).maxMessages = m.maxMessages := rfl

theorem appendAll_sessions (sid : String) :
    ∀ (msgs : List Message) (m : MemoryStore),
      (appendAll m sid msgs).sessions sid =
        msgs.foldl (fun h msg => trimLocked m.maxMessages (h ++ [msg])) (m.sessions sid) ∧
      (appendAll m sid msgs).maxMessages = m.maxMessages := by
  intro msgs
  induction msgs with
  | nil => intro m; exact ⟨rfl, rfl⟩
  | cons msg rest ih =>
    intro m
    rw [appendAll_cons]
    obtain ⟨h1, h2⟩ := ih (m.Append sid msg)
    refine ⟨?_, by rw [h2]; rfl⟩
    rw [h1, Append_sessions_self]
    rfl

/-- C6: starting from the server store (bound 40), any sequence of N appends
for a session leaves exactly the last min(N, 40) messages, a suffix of the
appended sequence in its original relative order. -/
theorem history_bound_fifo (sid : String) (msgs : List Message) :
    (appendAll (NewMemoryStore 40) sid msgs).Get sid = msgs.drop (msgs.length - 40) ∧
    ((appendAll (NewMemoryStore 40) sid msgs).Get sid).length = min msgs.length 40 ∧
    List.IsSuffix ((appendAll (NewMemoryStore 40) sid msgs).Get sid) msgs := by
  have hmain : (appendAll (NewMemoryStore 40) sid msgs).Get sid =
      msgs.drop (msgs.length - 40) := by
    show (appendAll (NewMemoryStore 40) sid msgs).sessions sid = _
    rw [(appendAll_sessions sid msgs (NewMemoryStore 40)).1]
    have hcast : (NewMemoryStore 40).maxMessages = ((40 : Nat) : Int) := by
      norm_num [NewMemoryStore]
    rw [hcast]
    rw [foldl_trimLocked_append 40 (by omega) msgs
      ((NewMemoryStore 40).sessions sid) (by simp [NewMemoryStore])]
    simp [NewMemoryStore]
  refine ⟨hmain, ?_, ?_⟩
  · rw [hmain, List.length_drop]
    omega
  · rw [hmain]
    exact List.drop_suffix _ _

/-! TTL semantics of the pending-intent and last-PRs caches. -/

/-- C4: writing a pending intent (or PR-ref cache) at t0 and reading at t1
returns the stored value while t1 - t0 ≤ TTL; past the TTL the read reports
not-found and deletes the entry on that read; and any subsequent write
overwrites the slot independently of the expired value. -/
theorem ttl_lazy_expiry
    (m : MemoryStore) (sid typ : String) (args : ArgMap) (prs : List PRRef)
    (t0 t1 : Nat) :
    (t1 - t0 ≤ pendingTTL →
      ((m.SetPendingIntent sid typ args t0).GetPendingIntent sid t1).1 =
        (typ, args, true)) ∧
    (pendingTTL < t1 - t0 →
      ((m.SetPendingIntent sid typ args t0).GetPendingIntent sid t1).1 =
        ("", [], false) ∧
      ((m.SetPendingIntent sid typ args t0).GetPendingIntent sid t1).2.pendingBySession sid =
        none) ∧
    (∀ (m2 : MemoryStore) (typ2 : String) (args2 : ArgMap) (t2 : Nat),
      (m2.SetPendingIntent sid typ2 args2 t2).pendingBySession sid =
        some ⟨typ2, args2, t2⟩) ∧
    (t1 - t0 ≤ lastPRsTTL →
      ((m.SetLastPRs sid prs t0).GetLastPRs sid t1).1 = (prs, true)) ∧
    (lastPRsTTL < t1 - t0 →
      ((m.SetLastPRs sid prs t0).GetLastPRs sid t1).1 = ([], false) ∧
      ((m.SetLastPRs sid prs t0).GetLastPRs sid t1).2.lastPRsBySession sid = none) := by
  refine ⟨?_, ?_, ?_, ?_, ?_⟩
  · intro h
    simp [MemoryStore.SetPendingIntent, MemoryStore.GetPendingIntent, Nat.not_lt.mpr h]
  · intro h
    constructor <;>
      simp [MemoryStore.SetPendingIntent, MemoryStore.GetPendingIntent, h]
  · intro m2 typ2 args2 t2
    simp [MemoryStore.SetPendingIntent]
  · intro h
    simp [MemoryStore.SetLastPRs, MemoryStore.GetLastPRs, Nat.not_lt.mpr h]
  · intro h
    constructor <;>
      simp [MemoryStore.SetLastPRs, MemoryStore.GetLastPRs, h]

/-- Witness for C4: a concrete write read back one tick later, and read
again one tick past the TTL. -/
theorem ttl_lazy_expiry_witness :
    ((1 : Nat) - 0 ≤ pendingTTL) ∧
    (((NewMemoryStore 40).SetPendingIntent "s" "merge_pr"
        [("pr_number", Value.num 7)] 0).GetPendingIntent "s" 1).1 =
      ("merge_pr", [("pr_number", Value.num 7)], true) ∧
    (pendingTTL < (pendingTTL + 1) - 0) ∧
    (((NewMemoryStore 40).SetPendingIntent "s" "merge_pr"
        [("pr_number", Value.num 7)] 0).GetPendingIntent "s" (pendingTTL + 1)).1 =
      ("", [], false) := by
  refine ⟨by decide, ?_, by omega, ?_⟩
  · exact (ttl_lazy_expiry (NewMemoryStore 40) "s" "merge_pr"
      [("pr_number", Value.num 7)] [] 0 1).1 (by decide)
  · exact ((ttl_lazy_expiry (NewMemoryStore 40) "s" "merge_pr"
      [("pr_number", Value.num 7)] [] 0 (pendingTTL + 1)).2.1 (by omega)).1

/-! Single-use OAuth handshake state. -/

/-- C9: resolving a state token does not mutate the store; clearing removes
both directions of the id↔token link; and a completed callback invalidates
the token, so a replay of the same state token no longer resolves. -/
theorem oauth_state_single_use
    (m : MemoryStore) (env : CallbackEnv) (state code : String)
    (hstate : state ≠ "") (hcode : code ≠ "")
    (hresolve : (m.GetSessionByOAuthState state).1 ≠ "")
    (hback : m.GetOAuthState (m.GetSessionByOAuthState state).1 = state)
    (hex : env.exchangeOk = true) (husr : env.username ≠ "") (hsave : env.saveOk = true) :
    (∀ tok, (m.GetSessionByOAuthState tok).2 = m) ∧
    (∀ sid st', m.oauthStateBySession sid = some st' →
      (m.ClearOAuthState sid).oauthStateBySession sid = none ∧
      (m.ClearOAuthState sid).sessionByOAuthState st' = none) ∧
    (handleGitHubCallback env m state code).1 =
      CallbackResult.redirect (env.frontendURL ++ "?githubAuth=success") ∧
    ((handleGitHubCallback env m state code).2.GetSessionByOAuthState state).1 = "" := by
  have hsid : m.oauthStateBySession (m.GetSessionByOAuthState state).1 = some state := by
    unfold MemoryStore.GetOAuthState at hback
    cases hos : m.oauthStateBySession (m.GetSessionByOAuthState state).1 with
    | none => rw [hos] at hback; exact absurd hback.symm hstate
    | some x =>
      rw [hos] at hback
      simp only [Option.getD_some] at hback
      exact congrArg some hback
  have hcb : handleGitHubCallback env m state code =
      (CallbackResult.redirect (env.frontendURL ++ "?githubAuth=success"),
        (m.SetUsername (m.GetSessionByOAuthState state).1 env.username).ClearOAuthState
          (m.GetSessionByOAuthState state).1) := by
    unfold handleGitHubCallback
    rw [if_neg (by push_neg; exact ⟨hstate, hcode⟩)]
    rw [if_neg (by push_neg; exact ⟨hresolve, by rw [hback]⟩)]
    rw [if_neg (by simp [hex])]
    rw [if_neg husr]
    rw [if_neg (by simp [hsave])]
  refine ⟨fun tok => rfl, ?_, ?_, ?_⟩
  · intro sid st' hlink
    unfold MemoryStore.ClearOAuthState
    rw [hlink]
    exact ⟨by simp, by simp⟩
  · rw [hcb]
  · rw [hcb]
    show ((((m.SetUsername (m.GetSessionByOAuthState state).1
        env.username).ClearOAuthState
        (m.GetSessionByOAuthState state).1).sessionByOAuthState state).getD "") = ""
    unfold MemoryStore.ClearOAuthState
    rw [show (m.SetUsername (m.GetSessionByOAuthState state).1
        env.username).oauthStateBySession = m.oauthStateBySession from rfl]
    rw [hsid]
    simp

/-- Witness for C9 at a concrete two-session store. -/
theorem oauth_state_single_use_witness :
    (("stA" : String) ≠ "" ∧ ("codeX" : String) ≠ "") ∧
    ((handleGitHubCallback ⟨true, "alice", true, "https://front"⟩
      { NewMemoryStore 40 with
          oauthStateBySession := fun s => if s = "sid1" then some "stA" else none
          sessionByOAuthState := fun t => if t = "stA" then some "sid1" else none }
      "stA" "codeX").2.GetSessionByOAuthState "stA").1 = "" := by
  have h := oauth_state_single_use
    { NewMemoryStore 40 with
        oauthStateBySession := fun s => if s = "sid1" then some "stA" else none
        sessionByOAuthState := fun t => if t = "stA" then some "sid1" else none }
    ⟨true, "alice", true, "https://front"⟩ "stA" "codeX"
    (by decide) (by decide) (by decide) (by decide) rfl (by decide) rfl
  exact ⟨⟨by decide, by decide⟩, h.2.2.2⟩

/-! Routing helpers for the per-turn state machine. -/

theorem mergeWithPending_fst_of_ne_clarify (ciType : String) (ciArgs : ArgMap)
    (pending : Option (String × ArgMap)) (h : ciType ≠ "clarify") :
    (mergeWithPending ciType ciArgs pending).1 = ciType := by
  cases pending with
  | none => rfl
  | some p =>
    obtain ⟨pType, pArgs⟩ := p
    rw [mergeWithPending_fst, if_neg (fun hc => h hc.1)]

/-- C7: a classification of type "unknown" or "not_implemented" clears any
pending intent — whatever its type — leaves the rest of the session state
alone, and replies gracefully with structured intent type
"not_implemented". -/
theorem unknown_clears_pending (env : Env) (st : SessionState) (ci : ClassifiedIntent)
    (hty : ci.typ = "not_implemented" ∨ ci.typ = "unknown") :
    (handleWithArgs env st ci).intent =
      some ⟨"not_implemented", Payload.nonePayload⟩ ∧
    (handleWithArgs env st ci).state.pending = none ∧
    (handleWithArgs env st ci).state.lastPRs = st.lastPRs ∧
    (handleWithArgs env st ci).state.history = st.history ∧
    (handleWithArgs env st ci).ok = true ∧
    (handleWithArgs env st ci).reply =
      (if goTrim ci.message = "" then
        "I haven't learned that trick yet — but I'm practicing!"
      else goTrim ci.message) := by
  have hfst : (mergeWithPending ci.typ ci.args st.pending).1 = ci.typ :=
    mergeWithPending_fst_of_ne_clarify ci.typ ci.args st.pending
      (by rcases hty with h | h <;> rw [h] <;> decide)
  have hroute : handleWithArgs env st ci = notImplementedBranch st ci := by
    show routeIntent env st ci (mergeWithPending ci.typ ci.args st.pending) = _
    unfold routeIntent
    rcases hty with h | h <;> rw [hfst, h] <;>
      rw [if_neg (by decide), if_neg (by decide), if_neg (by decide), if_neg (by decide),
        if_pos (by decide)]
  rw [hroute]
  exact ⟨rfl, rfl, rfl, rfl, rfl, rfl⟩

/-- Witness for C7: an unknown utterance while a merge_pr intent is
pending. -/
theorem unknown_clears_pending_witness :
    (("unknown" : String) = "not_implemented" ∨ ("unknown" : String) = "unknown") ∧
    (handleWithArgs
      ⟨"tok", "", Except.ok [], Except.ok [], Except.ok [], Except.ok ()⟩
      ⟨[], some ("merge_pr", [("pr_number", Value.num 7)]), some [⟨7, "A/x"⟩], ""⟩
      ⟨"unknown", [], "no clue"⟩).state.pending = none ∧
    (handleWithArgs
      ⟨"tok", "", Except.ok [], Except.ok [], Except.ok [], Except.ok ()⟩
      ⟨[], some ("merge_pr", [("pr_number", Value.num 7)]), some [⟨7, "A/x"⟩], ""⟩
      ⟨"unknown", [], "no clue"⟩).intent =
      some ⟨"not_implemented", Payload.nonePayload⟩ := by
  have h := unknown_clears_pending
    ⟨"tok", "", Except.ok [], Except.ok [], Except.ok [], Except.ok ()⟩
    ⟨[], some ("merge_pr", [("pr_number", Value.num 7)]), some [⟨7, "A/x"⟩], ""⟩
    ⟨"unknown", [], "no clue"⟩ (Or.inr rfl)
  exact ⟨Or.inr rfl, h.2.1, h.1⟩

/-! Listing actions and the last-PRs cache. -/

theorem list_route (env : Env) (st : SessionState) (ci : ClassifiedIntent)
    (hty : ci.typ = "list_prs_mine" ∨ ci.typ = "list_prs_review") :
    handleWithArgs env st ci = listBranch env st ci.typ := by
  have hfst : (mergeWithPending ci.typ ci.args st.pending).1 = ci.typ :=
    mergeWithPending_fst_of_ne_clarify ci.typ ci.args st.pending
      (by rcases hty with h | h <;> rw [h] <;> decide)
  show routeIntent env st ci (mergeWithPending ci.typ ci.args st.pending) = _
  unfold routeIntent
  rw [hfst, if_pos hty]

/-- C3 counterexample: a successful empty listing clears the pending intent
but leaves the previously cached task references in place — it does not
replace recentTaskRefs with an empty set as the claim states. -/
theorem empty_listing_counterexample :
    (handleWithArgs
      ⟨"tok", "", Except.ok [], Except.ok [], Except.ok [], Except.ok ()⟩
      ⟨[], some ("merge_pr", []), some [⟨7, "A/x"⟩], ""⟩
      ⟨"list_prs_mine", [], ""⟩).state.pending = none ∧
    (handleWithArgs
      ⟨"tok", "", Except.ok [], Except.ok [], Except.ok [], Except.ok ()⟩
      ⟨[], some ("merge_pr", []), some [⟨7, "A/x"⟩], ""⟩
      ⟨"list_prs_mine", [], ""⟩).state.lastPRs = some [⟨7, "A/x"⟩] ∧
    some [(⟨7, "A/x"⟩ : PRRef)] ≠ some ([] : List PRRef) := by
  refine ⟨by decide, by decide, by decide⟩

/-- C3 (amended): a listing action that succeeds clears any pending intent;
it replaces recentTaskRefs only when the result list is non-empty — a
successful empty listing leaves the previously cached references in place
until their TTL expires. -/
theorem listing_updates_cache (env : Env) (st : SessionState) (ci : ClassifiedIntent)
    (prs : List PR)
    (hty : ci.typ = "list_prs_mine" ∨ ci.typ = "list_prs_review")
    (htok : goTrim env.token ≠ "")
    (hres : (if ci.typ = "list_prs_mine" then env.listMine else env.listReview) =
      Except.ok prs) :
    (handleWithArgs env st ci).state.pending = none ∧
    (prs = [] → (handleWithArgs env st ci).state.lastPRs = st.lastPRs) ∧
    (prs ≠ [] → (handleWithArgs env st ci).state.lastPRs =
      some (prs.map (fun p => PRRef.mk p.Number p.Repository))) := by
  rw [list_route env st ci hty]
  unfold listBranch
  rw [if_neg htok, hres]
  cases prs with
  | nil =>
    exact ⟨rfl, fun _ => rfl, fun hne => absurd rfl hne⟩
  | cons p rest =>
    refine ⟨rfl, fun hc => absurd hc (by simp), fun _ => ?_⟩
    simp

/-- Witness for C3 (amended): the same concrete empty listing as the
counterexample. -/
theorem listing_updates_cache_witness :
    (("list_prs_mine" : String) = "list_prs_mine" ∨
      ("list_prs_mine" : String) = "list_prs_review") ∧
    (handleWithArgs
      ⟨"tok", "", Except.ok [], Except.ok [], Except.ok [], Except.ok ()⟩
      ⟨[], some ("merge_pr", []), some [⟨7, "A/x"⟩], ""⟩
      ⟨"list_prs_mine", [], ""⟩).state.pending = none ∧
    (handleWithArgs
      ⟨"tok", "", Except.ok [], Except.ok [], Except.ok [], Except.ok ()⟩
      ⟨[], some ("merge_pr", []), some [⟨7, "A/x"⟩], ""⟩
      ⟨"list_prs_mine", [], ""⟩).state.lastPRs =
      (⟨[], some ("merge_pr", []), some [⟨7, "A/x"⟩], ""⟩ : SessionState).lastPRs := by
  have h := listing_updates_cache
    ⟨"tok", "", Except.ok [], Except.ok [], Except.ok [], Except.ok ()⟩
    ⟨[], some ("merge_pr", []), some [⟨7, "A/x"⟩], ""⟩
    ⟨"list_prs_mine", [], ""⟩ [] (Or.inl rfl) (by decide) rfl
  exact ⟨Or.inl rfl, h.1, h.2.1 rfl⟩

/-! Provider failures leave session state untouched. -/

theorem mergeWithPending_snd_cases (ciType pType : String) (ciArgs pArgs : ArgMap) :
    (mergeWithPending ciType ciArgs (some (pType, pArgs))).2 = fillMissing ciArgs pArgs ∨
    (mergeWithPending ciType ciArgs (some (pType, pArgs))).2 = ciArgs := by
  by_cases hc : (if ciType = "clarify" ∧ pType ≠ "" then pType else ciType) = pType ∧
      (if ciType = "clarify" ∧ pType ≠ "" then pType else ciType) ≠ ""
  · left
    show (if (if ciType = "clarify" ∧ pType ≠ "" then pType else ciType) = pType ∧
        (if ciType = "clarify" ∧ pType ≠ "" then pType else ciType) ≠ "" then
      ((if ciType = "clarify" ∧ pType ≠ "" then pType else ciType), fillMissing ciArgs pArgs)
    else
      ((if ciType = "clarify" ∧ pType ≠ "" then pType else ciType), ciArgs)).2 = _
    rw [if_pos hc]
  · right
    show (if (if ciType = "clarify" ∧ pType ≠ "" then pType else ciType) = pType ∧
        (if ciType = "clarify" ∧ pType ≠ "" then pType else ciType) ≠ "" then
      ((if ciType = "clarify" ∧ pType ≠ "" then pType else ciType), fillMissing ciArgs pArgs)
    else
      ((if ciType = "clarify" ∧ pType ≠ "" then pType else ciType), ciArgs)).2 = _
    rw [if_neg hc]

theorem mergeWithPending_snd_find_isSome (ciType : String) (ciArgs : ArgMap)
    (pending : Option (String × ArgMap)) (k : String) (v : Value)
    (h : ArgMap.find ciArgs k = some v) :
    ArgMap.find (mergeWithPending ciType ciArgs pending).2 k = some v := by
  cases pending with
  | none => exact h
  | some p =>
    obtain ⟨pType, pArgs⟩ := p
    rcases mergeWithPending_snd_cases ciType pType ciArgs pArgs with hc | hc <;> rw [hc]
    · rw [find_fillMissing_of_isSome pArgs ciArgs k (by rw [h]; rfl)]
      exact h
    · exact h

/-- C5: when the action-provider call of a fully resolved get_pr_comments or
merge_pr intent fails, the turn replies with structured intent type "error"
and the session state — pending intent, cached task refs, username and
history — is exactly what it was before the call. -/
theorem provider_failure_preserves_state (env : Env) (st : SessionState)
    (ci : ClassifiedIntent) (r : String) (n : Int)
    (hty : ci.typ = "get_pr_comments" ∨ ci.typ = "merge_pr")
    (hrepo : ArgMap.find ci.args "repo" = some (Value.str r))
    (hr1 : goTrim r ≠ "")
    (hr2 : containsChar (goTrim r) '/' = true)
    (hn : ArgMap.find ci.args "pr_number" = some (Value.num n))
    (hn0 : 0 < n)
    (htok : goTrim env.token ≠ "")
    (hcerr : env.comments = Except.error ())
    (hmerr : env.mergeRes = Except.error ()) :
    (handleWithArgs env st ci).intent = some ⟨"error", Payload.nonePayload⟩ ∧
    (handleWithArgs env st ci).state = st ∧
    (handleWithArgs env st ci).ok = true := by
  have hfst : (mergeWithPending ci.typ ci.args st.pending).1 = ci.typ :=
    mergeWithPending_fst_of_ne_clarify ci.typ ci.args st.pending
      (by rcases hty with h | h <;> rw [h] <;> decide)
  have hfr : extractString (mergeWithPending ci.typ ci.args st.pending).2 "repo" = r := by
    unfold extractString
    rw [mergeWithPending_snd_find_isSome ci.typ ci.args st.pending "repo" (Value.str r) hrepo]
  have hfn : extractPRNumber (mergeWithPending ci.typ ci.args st.pending).2 = n := by
    unfold extractPRNumber
    rw [mergeWithPending_snd_find_isSome ci.typ ci.args st.pending "pr_number"
      (Value.num n) hn]
  have hexp : expandRepo st.username env.defaultRepoOwner (goTrim r) = goTrim r := by
    unfold expandRepo
    rw [if_neg]
    rintro ⟨-, hcc⟩
    rw [hr2] at hcc
    exact Bool.noConfusion hcc
  rcases hty with h | h
  · have hroute : handleWithArgs env st ci =
        getCommentsBranch env st (mergeWithPending ci.typ ci.args st.pending).2 := by
      show routeIntent env st ci (mergeWithPending ci.typ ci.args st.pending) = _
      unfold routeIntent
      rw [hfst, h]
      rw [if_neg (by decide), if_pos rfl]
    rw [hroute]
    simp only [getCommentsBranch, hfr, hfn, hexp, goTrim_goTrim]
    rw [if_neg (fun hc => hr1 hc.1)]
    simp only [finishGetComments, goTrim_goTrim]
    rw [if_neg (fun hc => hr1 hc.1), if_neg hr1, if_neg (by omega), if_neg htok, hcerr]
    exact ⟨rfl, rfl, rfl⟩
  · have hroute : handleWithArgs env st ci =
        mergeBranch env st (mergeWithPending ci.typ ci.args st.pending).2 := by
      show routeIntent env st ci (mergeWithPending ci.typ ci.args st.pending) = _
      unfold routeIntent
      rw [hfst, h]
      rw [if_neg (by decide), if_neg (by decide), if_pos rfl]
    rw [hroute]
    simp only [mergeBranch, hfr, hfn, hexp, goTrim_goTrim]
    rw [if_neg (fun hc => hr1 hc.1)]
    simp only [finishMerge]
    rw [if_neg (fun hc => hr1 hc.1), if_neg hr1, if_neg (by omega), if_neg htok, hmerr]
    exact ⟨rfl, rfl, rfl⟩

/-- Witness for C5: a failed merge of a fully resolved request, with a
pending intent and cached refs in place, all preserved. -/
theorem provider_failure_preserves_state_witness :
    (("merge_pr" : String) = "get_pr_comments" ∨ ("merge_pr" : String) = "merge_pr") ∧
    (handleWithArgs
      ⟨"tok", "", Except.ok [], Except.ok [], Except.error (), Except.error ()⟩
      ⟨[], some ("merge_pr", [("merge_method", Value.str "squash")]), some [⟨7, "A/x"⟩], ""⟩
      ⟨"merge_pr", [("repo", Value.str "acme/widgets"), ("pr_number", Value.num 7)],
        ""⟩).intent = some ⟨"error", Payload.nonePayload⟩ ∧
    (handleWithArgs
      ⟨"tok", "", Except.ok [], Except.ok [], Except.error (), Except.error ()⟩
      ⟨[], some ("merge_pr", [("merge_method", Value.str "squash")]), some [⟨7, "A/x"⟩], ""⟩
      ⟨"merge_pr", [("repo", Value.str "acme/widgets"), ("pr_number", Value.num 7)],
        ""⟩).state =
      ⟨[], some ("merge_pr", [("merge_method", Value.str "squash")]), some [⟨7, "A/x"⟩], ""⟩ := by
  have h := provider_failure_preserves_state
    ⟨"tok", "", Except.ok [], Except.ok [], Except.error (), Except.error ()⟩
    ⟨[], some ("merge_pr", [("merge_method", Value.str "squash")]), some [⟨7, "A/x"⟩], ""⟩
    ⟨"merge_pr", [("repo", Value.str "acme/widgets"), ("pr_number", Value.num 7)], ""⟩
    "acme/widgets" 7 (Or.inr rfl) rfl (by decide) (by decide) rfl (by decide) (by decide)
    rfl rfl
  exact ⟨Or.inr rfl, h.1, h.2.1⟩

/-! Authorization short-circuit of the chat turn. -/

/-- C8: with no GitHub credential, the turn answers with the
authorization-required structured response before intent classification: the
outcome is the same for every classifier output, and the pending-intent and
task-ref slots are left untouched (only the history gets this turn's
messages). -/
theorem no_credential_short_circuit (env : Env) (st : SessionState) (req : ChatRequest)
    (classified : Option ClassifiedIntent)
    (hmsg : goTrim req.message ≠ "")
    (htok : goTrim env.token = "") :
    (∀ c1 c2 : Option ClassifiedIntent,
      handleChat env st req c1 = handleChat env st req c2) ∧
    handleChat env st req classified =
      ChatOutcome.response
        "Please connect your GitHub account to use this application. This service helps you manage GitHub pull requests - fetching, listing, merging, and viewing PR comments."
        (some ⟨"require_github_auth", Payload.nonePayload⟩)
        (appendHistory (if req.system ≠ "" then appendHistory st "system" req.system else st)
          "user" req.message) ∧
    (appendHistory (if req.system ≠ "" then appendHistory st "system" req.system else st)
        "user" req.message).pending = st.pending ∧
    (appendHistory (if req.system ≠ "" then appendHistory st "system" req.system else st)
        "user" req.message).lastPRs = st.lastPRs := by
  have heq : ∀ c : Option ClassifiedIntent,
      handleChat env st req c =
        ChatOutcome.response
          "Please connect your GitHub account to use this application. This service helps you manage GitHub pull requests - fetching, listing, merging, and viewing PR comments."
          (some ⟨"require_github_auth", Payload.nonePayload⟩)
          (appendHistory (if req.system ≠ "" then appendHistory st "system" req.system else st)
            "user" req.message) := by
    intro c
    simp only [handleChat]
    rw [if_neg hmsg, if_pos htok]
  refine ⟨fun c1 c2 => (heq c1).trans (heq c2).symm, heq classified, ?_, ?_⟩
  · by_cases hsys : req.system ≠ ""
    · rw [if_pos hsys]; rfl
    · rw [if_neg hsys]; rfl
  · by_cases hsys : req.system ≠ ""
    · rw [if_pos hsys]; rfl
    · rw [if_neg hsys]; rfl

/-- Witness for C8: a turn with no credential and a pending merge intent is
answered by the authorization response, identically for two different
classifier outputs. -/
theorem no_credential_short_circuit_witness :
    goTrim "list my prs" ≠ "" ∧
    goTrim "" = "" ∧
    handleChat ⟨"", "", Except.ok [], Except.ok [], Except.ok [], Except.ok ()⟩
      ⟨[], some ("merge_pr", []), some [⟨7, "A/x"⟩], ""⟩ ⟨"list my prs", ""⟩ none =
    handleChat ⟨"", "", Except.ok [], Except.ok [], Except.ok [], Except.ok ()⟩
      ⟨[], some ("merge_pr", []), some [⟨7, "A/x"⟩], ""⟩ ⟨"list my prs", ""⟩
      (some ⟨"merge_pr", [("pr_number", Value.num 7)], ""⟩) ∧
    (handleChat ⟨"", "", Except.ok [], Except.ok [], Except.ok [], Except.ok ()⟩
      ⟨[], some ("merge_pr", []), some [⟨7, "A/x"⟩], ""⟩ ⟨"list my prs", ""⟩ none =
      ChatOutcome.response
        "Please connect your GitHub account to use this application. This service helps you manage GitHub pull requests - fetching, listing, merging, and viewing PR comments."
        (some ⟨"require_github_auth", Payload.nonePayload⟩)
        (appendHistory
          (if ("" : String) ≠ "" then
            appendHistory ⟨[], some ("merge_pr", []), some [⟨7, "A/x"⟩], ""⟩ "system" ""
          else ⟨[], some ("merge_pr", []), some [⟨7, "A/x"⟩], ""⟩)
          "user" "list my prs")) := by
  have h := no_credential_short_circuit
    ⟨"", "", Except.ok [], Except.ok [], Except.ok [], Except.ok ()⟩
    ⟨[], some ("merge_pr", []), some [⟨7, "A/x"⟩], ""⟩ ⟨"list my prs", ""⟩ none
    (by decide) rfl
  exact ⟨by decide, rfl,
    h.1 none (some ⟨"merge_pr", [("pr_number", Value.num 7)], ""⟩), h.2.1⟩

/-! Bare-repo expansion and the resolved dispatch path. -/

theorem goTrim_concat_fixed (u rep : String) (hrep : goTrim rep = rep) :
    goTrim (goTrim u ++ "/" ++ rep) = goTrim u ++ "/" ++ rep := by
  have h := goTrim_concat u rep
  rwa [hrep] at h

theorem concat_ne_empty_fixed (u rep : String) (hrep : goTrim rep = rep) :
    goTrim u ++ "/" ++ rep ≠ "" := by
  have h := goTrim_ne_empty_of_concat u rep
  rwa [hrep] at h

theorem expandRepo_spec (u d rep : String) (h1 : rep ≠ "")
    (h2 : containsChar rep '/' = false) :
    expandRepo u d rep =
      if goTrim u ≠ "" then goTrim u ++ "/" ++ rep
      else if goTrim d ≠ "" then goTrim d ++ "/" ++ rep
      else rep := by
  unfold expandRepo
  rw [if_pos ⟨h1, h2⟩]
  show (if (if goTrim u = "" then goTrim d else goTrim u) ≠ "" then
      (if goTrim u = "" then goTrim d else goTrim u) ++ "/" ++ rep else rep) = _
  by_cases hu : goTrim u = ""
  · rw [if_pos hu, if_neg (show ¬(goTrim u ≠ "") from fun hh => hh hu)]
  · rw [if_neg hu, if_pos hu, if_pos hu]

theorem expandRepo_trim_fixed (u d rep : String) (h1 : rep ≠ "")
    (h2 : containsChar rep '/' = false) (hrep : goTrim rep = rep) :
    goTrim (expandRepo u d rep) = expandRepo u d rep ∧ expandRepo u d rep ≠ "" := by
  rw [expandRepo_spec u d rep h1 h2]
  by_cases hu : goTrim u ≠ ""
  · rw [if_pos hu]
    exact ⟨goTrim_concat_fixed u rep hrep, concat_ne_empty_fixed u rep hrep⟩
  · rw [if_neg hu]
    by_cases hd : goTrim d ≠ ""
    · rw [if_pos hd]
      exact ⟨goTrim_concat_fixed d rep hrep, concat_ne_empty_fixed d rep hrep⟩
    · rw [if_neg hd]
      exact ⟨hrep, h1⟩

theorem finishGetComments_dispatch (env : Env) (st : SessionState) (margs : ArgMap)
    (repo : String) (n : Int) (cs : List Comment)
    (hrepo : repo ≠ "") (hfix : goTrim repo = repo) (hn0 : 0 < n)
    (htok : goTrim env.token ≠ "") (hcs : env.comments = Except.ok cs) :
    finishGetComments env st margs repo n =
      { reply := "I found " ++ toString cs.length ++ " comment(s) on GitHub pull request " ++
          repo ++ "#" ++ toString n ++ ".",
        intent := some ⟨"show_comments", Payload.showComments repo n cs⟩, ok := true,
        state := { st with pending := none } } := by
  simp only [finishGetComments, hfix]
  rw [if_neg (fun hc => hrepo hc.1), if_neg hrepo, if_neg (by omega), if_neg htok, hcs]

theorem finishMerge_dispatch (env : Env) (st : SessionState) (margs : ArgMap)
    (repo : String) (n : Int) (method : String)
    (hrepo : repo ≠ "") (hn0 : 0 < n)
    (htok : goTrim env.token ≠ "") (hmg : env.mergeRes = Except.ok ()) :
    finishMerge env st margs repo n method =
      { reply := "Successfully merged GitHub pull request " ++ repo ++ "#" ++ toString n ++
          " using " ++ method ++ " method.",
        intent := some ⟨"merged", Payload.mergedPR repo n method⟩, ok := true,
        state := { st with pending := none } } := by
  simp only [finishMerge]
  rw [if_neg (fun hc => hrepo hc.1), if_neg hrepo, if_neg (by omega), if_neg htok, hmg]


theorem getCommentsBranch_resolved (env : Env) (st : SessionState) (margs : ArgMap)
    (r : String) (n : Int)
    (hrepo : extractString margs "repo" = r)
    (hr1 : goTrim r ≠ "")
    (hr2 : containsChar (goTrim r) '/' = false)
    (hn : extractPRNumber margs = n) :
    getCommentsBranch env st margs =
      finishGetComments env st margs
        (expandRepo st.username env.defaultRepoOwner (goTrim r)) n := by
  obtain ⟨hfix, hne⟩ := expandRepo_trim_fixed st.username env.defaultRepoOwner (goTrim r)
    hr1 hr2 (goTrim_goTrim r)
  simp only [getCommentsBranch, hrepo, hn, hfix]
  rw [if_neg (fun hc => hne hc.1)]

theorem mergeBranch_resolved (env : Env) (st : SessionState) (margs : ArgMap)
    (r : String) (n : Int)
    (hrepo : extractString margs "repo" = r)
    (hr1 : goTrim r ≠ "")
    (hr2 : containsChar (goTrim r) '/' = false)
    (hn : extractPRNumber margs = n) :
    mergeBranch env st margs =
      finishMerge env st margs
        (expandRepo st.username env.defaultRepoOwner (goTrim r)) n
        (if (goTrim (extractString margs "merge_method")).toLower = "" then "merge"
          else (goTrim (extractString margs "merge_method")).toLower) := by
  obtain ⟨hfix, hne⟩ := expandRepo_trim_fixed st.username env.defaultRepoOwner (goTrim r)
    hr1 hr2 (goTrim_goTrim r)
  simp only [mergeBranch, hrepo, hn]
  rw [if_neg (fun hc => hne hc.1)]

/-- C10: for get_pr_comments and merge_pr, a non-empty repo argument with no
slash is expanded to owner/repo with the session username, else the
configured default owner, else passed through bare; and whenever the repo
argument is non-empty the recentTaskRefs resolver is never consulted — the
turn is the same for every cache content. -/
theorem bare_repo_expansion (env : Env) (st : SessionState) (ci : ClassifiedIntent)
    (r : String) (n : Int) (cs : List Comment)
    (hty : ci.typ = "get_pr_comments" ∨ ci.typ = "merge_pr")
    (hpend : st.pending = none)
    (hrepo : ArgMap.find ci.args "repo" = some (Value.str r))
    (hr1 : goTrim r ≠ "")
    (hr2 : containsChar (goTrim r) '/' = false)
    (hn : ArgMap.find ci.args "pr_number" = some (Value.num n))
    (hn0 : 0 < n)
    (htok : goTrim env.token ≠ "")
    (hcs : env.comments = Except.ok cs)
    (hmg : env.mergeRes = Except.ok ()) :
    ((goTrim st.username ≠ "" →
      (handleWithArgs env st ci).dispatchedRepo =
        some (goTrim st.username ++ "/" ++ goTrim r)) ∧
     (goTrim st.username = "" → goTrim env.defaultRepoOwner ≠ "" →
      (handleWithArgs env st ci).dispatchedRepo =
        some (goTrim env.defaultRepoOwner ++ "/" ++ goTrim r)) ∧
     (goTrim st.username = "" → goTrim env.defaultRepoOwner = "" →
      (handleWithArgs env st ci).dispatchedRepo = some (goTrim r))) ∧
    (∀ c1 c2 : Option (List PRRef),
      (handleWithArgs env { st with lastPRs := c1 } ci).reply =
        (handleWithArgs env { st with lastPRs := c2 } ci).reply ∧
      (handleWithArgs env { st with lastPRs := c1 } ci).intent =
        (handleWithArgs env { st with lastPRs := c2 } ci).intent ∧
      (handleWithArgs env { st with lastPRs := c1 } ci).ok =
        (handleWithArgs env { st with lastPRs := c2 } ci).ok ∧
      (handleWithArgs env { st with lastPRs := c1 } ci).state.pending =
        (handleWithArgs env { st with lastPRs := c2 } ci).state.pending) := by
  have hfstne : ci.typ ≠ "clarify" := by
    rcases hty with h | h <;> rw [h] <;> decide
  have key : ∀ st' : SessionState, st'.pending = none → st'.username = st.username →
      (handleWithArgs env st' ci).dispatchedRepo =
        some (expandRepo st.username env.defaultRepoOwner (goTrim r)) ∧
      (handleWithArgs env st' ci).reply =
        (handleWithArgs env st ci).reply ∧
      (handleWithArgs env st' ci).intent = (handleWithArgs env st ci).intent ∧
      (handleWithArgs env st' ci).ok = (handleWithArgs env st ci).ok ∧
      (handleWithArgs env st' ci).state.pending = none := by
    intro st' hp' hu'
    have hroutes : ∀ stx : SessionState, stx.pending = none → stx.username = st.username →
        (ci.typ = "get_pr_comments" →
          handleWithArgs env stx ci =
            finishGetComments env stx ci.args
              (expandRepo st.username env.defaultRepoOwner (goTrim r)) n) ∧
        (ci.typ = "merge_pr" →
          handleWithArgs env stx ci =
            finishMerge env stx ci.args
              (expandRepo st.username env.defaultRepoOwner (goTrim r)) n
              (if (goTrim (extractString ci.args "merge_method")).toLower = "" then "merge"
                else (goTrim (extractString ci.args "merge_method")).toLower)) := by
      intro stx hpx hux
      have htm : mergeWithPending ci.typ ci.args stx.pending = (ci.typ, ci.args) := by
        rw [hpx]
        exact mergeWithPending_none ci.typ ci.args
      have hex : extractString ci.args "repo" = r := by
        unfold extractString
        rw [hrepo]
      have hexn : extractPRNumber ci.args = n := by
        unfold extractPRNumber
        rw [hn]
      constructor
      · intro h
        have : handleWithArgs env stx ci = getCommentsBranch env stx ci.args := by
          show routeIntent env stx ci (mergeWithPending ci.typ ci.args stx.pending) = _
          rw [htm]
          unfold routeIntent
          rw [show ((ci.typ, ci.args) : String × ArgMap).1 = ci.typ from rfl, h]
          rw [if_neg (by decide), if_pos rfl]
        rw [this, getCommentsBranch_resolved env stx ci.args r n hex hr1 hr2 hexn, hux]
      · intro h
        have : handleWithArgs env stx ci = mergeBranch env stx ci.args := by
          show routeIntent env stx ci (mergeWithPending ci.typ ci.args stx.pending) = _
          rw [htm]
          unfold routeIntent
          rw [show ((ci.typ, ci.args) : String × ArgMap).1 = ci.typ from rfl, h]
          rw [if_neg (by decide), if_neg (by decide), if_pos rfl]
        rw [this, mergeBranch_resolved env stx ci.args r n hex hr1 hr2 hexn, hux]
    obtain ⟨hfix, hne⟩ := expandRepo_trim_fixed st.username env.defaultRepoOwner (goTrim r)
      hr1 hr2 (goTrim_goTrim r)
    rcases hty with h | h
    · have h1 := ((hroutes st' hp' hu').1 h)
      have h2 := ((hroutes st hpend rfl).1 h)
      rw [h1, h2,
        finishGetComments_dispatch env st' ci.args _ n cs hne hfix hn0 htok hcs,
        finishGetComments_dispatch env st ci.args _ n cs hne hfix hn0 htok hcs]
      exact ⟨rfl, rfl, rfl, rfl, rfl⟩
    · have h1 := ((hroutes st' hp' hu').2 h)
      have h2 := ((hroutes st hpend rfl).2 h)
      rw [h1, h2,
        finishMerge_dispatch env st' ci.args _ n _ hne hn0 htok hmg,
        finishMerge_dispatch env st ci.args _ n _ hne hn0 htok hmg]
      exact ⟨rfl, rfl, rfl, rfl, rfl⟩
  constructor
  · have hdisp := (key st hpend rfl).1
    refine ⟨fun hu => ?_, fun hu hd => ?_, fun hu hd => ?_⟩
    · rw [hdisp, expandRepo_spec _ _ _ hr1 hr2, if_pos hu]
    · rw [hdisp, expandRepo_spec _ _ _ hr1 hr2, if_neg (fun hh => hh hu), if_pos hd]
    · rw [hdisp, expandRepo_spec _ _ _ hr1 hr2, if_neg (fun hh => hh hu),
        if_neg (fun hh => hh hd)]
  · intro c1 c2
    have k1 := key { st with lastPRs := c1 } hpend rfl
    have k2 := key { st with lastPRs := c2 } hpend rfl
    exact ⟨k1.2.1.trans k2.2.1.symm, k1.2.2.1.trans k2.2.2.1.symm,
      k1.2.2.2.1.trans k2.2.2.2.1.symm, k1.2.2.2.2.trans k2.2.2.2.2.symm⟩

/-- Witness for C10: a bare repo "widgets" with username " alice " expands
to "alice/widgets" for a merge dispatch. -/
theorem bare_repo_expansion_witness :
    (("merge_pr" : String) = "get_pr_comments" ∨ ("merge_pr" : String) = "merge_pr") ∧
    goTrim " alice " ≠ "" ∧
    (handleWithArgs
      ⟨"tok", " corp ", Except.ok [], Except.ok [], Except.ok [], Except.ok ()⟩
      ⟨[], none, some [⟨3, "A/x"⟩, ⟨3, "B/y"⟩], " alice "⟩
      ⟨"merge_pr", [("repo", Value.str " widgets "), ("pr_number", Value.num 3)],
        ""⟩).dispatchedRepo = some "alice/widgets" := by
  have h := bare_repo_expansion
    ⟨"tok", " corp ", Except.ok [], Except.ok [], Except.ok [], Except.ok ()⟩
    ⟨[], none, some [⟨3, "A/x"⟩, ⟨3, "B/y"⟩], " alice "⟩
    ⟨"merge_pr", [("repo", Value.str " widgets "), ("pr_number", Value.num 3)], ""⟩
    " widgets " 3 [] (Or.inr rfl) rfl rfl (by decide) (by decide) rfl (by decide)
    (by decide) rfl rfl
  refine ⟨Or.inr rfl, by decide, ?_⟩
  rw [h.1.1 (by decide)]
  decide

/-! Ambiguity resolution against the cached task references. -/

theorem expandRepo_empty (u d : String) : expandRepo u d "" = "" := by
  unfold expandRepo
  rw [if_neg]
  rintro ⟨h, -⟩
  exact h rfl

theorem route_getComments (env : Env) (st : SessionState) (ci : ClassifiedIntent)
    (hpend : st.pending = none) (h : ci.typ = "get_pr_comments") :
    handleWithArgs env st ci = getCommentsBranch env st ci.args := by
  show routeIntent env st ci (mergeWithPending ci.typ ci.args st.pending) = _
  rw [hpend, mergeWithPending_none]
  unfold routeIntent
  rw [show ((ci.typ, ci.args) : String × ArgMap).1 = ci.typ from rfl, h]
  rw [if_neg (by decide), if_pos rfl]

theorem route_merge (env : Env) (st : SessionState) (ci : ClassifiedIntent)
    (hpend : st.pending = none) (h : ci.typ = "merge_pr") :
    handleWithArgs env st ci = mergeBranch env st ci.args := by
  show routeIntent env st ci (mergeWithPending ci.typ ci.args st.pending) = _
  rw [hpend, mergeWithPending_none]
  unfold routeIntent
  rw [show ((ci.typ, ci.args) : String × ArgMap).1 = ci.typ from rfl, h]
  rw [if_neg (by decide), if_neg (by decide), if_pos rfl]

theorem finishGetComments_norepo (env : Env) (st : SessionState) (margs : ArgMap)
    (n : Int) (hn0 : 0 < n) :
    finishGetComments env st margs "" n =
      { reply := "Which repo is PR " ++ toString n ++ " in?",
        intent := some ⟨"clarify", Payload.nonePayload⟩, ok := true,
        state := { st with pending := some ("get_pr_comments", margs) } } := by
  simp only [finishGetComments, goTrim_empty]
  rw [if_neg (fun hc => absurd hc.2 (by omega)), if_pos trivial]

theorem finishMerge_norepo (env : Env) (st : SessionState) (margs : ArgMap)
    (n : Int) (method : String) (hn0 : 0 < n) :
    finishMerge env st margs "" n method =
      { reply := "Which repo is PR " ++ toString n ++ " in?",
        intent := some ⟨"clarify", Payload.nonePayload⟩, ok := true,
        state := { st with pending := some ("merge_pr", margs) } } := by
  simp only [finishMerge]
  rw [if_neg (fun hc => absurd hc.2 (by omega)), if_pos trivial]

theorem getCommentsBranch_missing (env : Env) (st : SessionState) (margs : ArgMap)
    (n : Int) (refs : List PRRef)
    (hrepo : extractString margs "repo" = "")
    (hn : extractPRNumber margs = n) (hn0 : 0 < n)
    (hrefs : st.lastPRs = some refs) :
    (resolveMatches refs n = [] →
      getCommentsBranch env st margs = finishGetComments env st margs "" n) ∧
    (∀ only, resolveMatches refs n = [only] →
      getCommentsBranch env st margs = finishGetComments env st margs only n) ∧
    (∀ r1 r2 rest, resolveMatches refs n = r1 :: r2 :: rest →
      getCommentsBranch env st margs =
        { reply := "Did you mean PR " ++ toString n ++ " in " ++
            String.intercalate " or " (r1 :: r2 :: rest) ++ "?",
          intent := some ⟨"clarify", Payload.nonePayload⟩, ok := true,
          state := { st with
            pending := some ("get_pr_comments", mapSet margs "pr_number" (Value.num n)) } }) := by
  refine ⟨fun hms => ?_, fun only hms => ?_, fun r1 r2 rest hms => ?_⟩ <;>
    simp only [getCommentsBranch, hrepo, goTrim_empty, expandRepo_empty, hn, hrefs] <;>
    rw [if_pos ⟨trivial, hn0⟩, hms]

theorem mergeBranch_missing (env : Env) (st : SessionState) (margs : ArgMap)
    (n : Int) (refs : List PRRef)
    (hrepo : extractString margs "repo" = "")
    (hn : extractPRNumber margs = n) (hn0 : 0 < n)
    (hrefs : st.lastPRs = some refs) :
    (resolveMatches refs n = [] →
      mergeBranch env st margs = finishMerge env st margs "" n
        (if (goTrim (extractString margs "merge_method")).toLower = "" then "merge"
          else (goTrim (extractString margs "merge_method")).toLower)) ∧
    (∀ only, resolveMatches refs n = [only] →
      mergeBranch env st margs = finishMerge env st margs only n
        (if (goTrim (extractString margs "merge_method")).toLower = "" then "merge"
          else (goTrim (extractString margs "merge_method")).toLower)) ∧
    (∀ r1 r2 rest, resolveMatches refs n = r1 :: r2 :: rest →
      mergeBranch env st margs =
        { reply := "Did you mean PR " ++ toString n ++ " in " ++
            String.intercalate " or " (r1 :: r2 :: rest) ++ "?",
          intent := some ⟨"clarify", Payload.nonePayload⟩, ok := true,
          state := { st with
            pending := some ("merge_pr", mapSet margs "pr_number" (Value.num n)) } }) := by
  refine ⟨fun hms => ?_, fun only hms => ?_, fun r1 r2 rest hms => ?_⟩ <;>
    simp only [mergeBranch, hrepo, goTrim_empty, expandRepo_empty, hn, hrefs] <;>
    rw [if_pos ⟨trivial, hn0⟩, hms]

/-- C2: an intent with a PR number but no repo scans the session's cached
refs: zero matches yields the open repo question (persisting the pending
intent); a unique match dispatches with the matched repository; several
matches yield the targeted question naming every candidate and persist the
pending intent with the known number. The spec's concrete cache resolves 7
ambiguously to A/x and B/y, 9 uniquely to A/x, and 42 to zero matches. -/
theorem ambiguity_resolution (env : Env) (st : SessionState) (ci : ClassifiedIntent)
    (n : Int) (refs : List PRRef) (cs : List Comment)
    (hpend : st.pending = none)
    (hrepo : ArgMap.find ci.args "repo" = none)
    (hn : ArgMap.find ci.args "pr_number" = some (Value.num n))
    (hn0 : 0 < n)
    (hrefs : st.lastPRs = some refs)
    (htok : goTrim env.token ≠ "")
    (hcs : env.comments = Except.ok cs)
    (hmg : env.mergeRes = Except.ok ()) :
    (ci.typ = "get_pr_comments" →
      (resolveMatches refs n = [] →
        handleWithArgs env st ci =
          { reply := "Which repo is PR " ++ toString n ++ " in?",
            intent := some ⟨"clarify", Payload.nonePayload⟩, ok := true,
            state := { st with pending := some ("get_pr_comments", ci.args) } }) ∧
      (∀ only, resolveMatches refs n = [only] → only ≠ "" → goTrim only = only →
        handleWithArgs env st ci =
          { reply := "I found " ++ toString cs.length ++
              " comment(s) on GitHub pull request " ++ only ++ "#" ++ toString n ++ ".",
            intent := some ⟨"show_comments", Payload.showComments only n cs⟩, ok := true,
            state := { st with pending := none } }) ∧
      (∀ r1 r2 rest, resolveMatches refs n = r1 :: r2 :: rest →
        handleWithArgs env st ci =
          { reply := "Did you mean PR " ++ toString n ++ " in " ++
              String.intercalate " or " (r1 :: r2 :: rest) ++ "?",
            intent := some ⟨"clarify", Payload.nonePayload⟩, ok := true,
            state := { st with
            pending := some ("get_pr_comments", mapSet ci.args "pr_number" (Value.num n)) } })) ∧
    (ci.typ = "merge_pr" →
      (resolveMatches refs n = [] →
        handleWithArgs env st ci =
          { reply := "Which repo is PR " ++ toString n ++ " in?",
            intent := some ⟨"clarify", Payload.nonePayload⟩, ok := true,
            state := { st with pending := some ("merge_pr", ci.args) } }) ∧
      (∀ only, resolveMatches refs n = [only] → only ≠ "" →
        handleWithArgs env st ci =
          { reply := "Successfully merged GitHub pull request " ++ only ++ "#" ++
              toString n ++ " using " ++
              (if (goTrim (extractString ci.args "merge_method")).toLower = "" then "merge"
                else (goTrim (extractString ci.args "merge_method")).toLower) ++ " method.",
            intent := some ⟨"merged", Payload.mergedPR only n
              (if (goTrim (extractString ci.args "merge_method")).toLower = "" then "merge"
                else (goTrim (extractString ci.args "merge_method")).toLower)⟩, ok := true,
            state := { st with pending := none } }) ∧
      (∀ r1 r2 rest, resolveMatches refs n = r1 :: r2 :: rest →
        handleWithArgs env st ci =
          { reply := "Did you mean PR " ++ toString n ++ " in " ++
              String.intercalate " or " (r1 :: r2 :: rest) ++ "?",
            intent := some ⟨"clarify", Payload.nonePayload⟩, ok := true,
            state := { st with
            pending := some ("merge_pr", mapSet ci.args "pr_number" (Value.num n)) } })) ∧
    resolveMatches [⟨7, "A/x"⟩, ⟨7, "B/y"⟩, ⟨9, "A/x"⟩] 7 = ["A/x", "B/y"] ∧
    resolveMatches [⟨7, "A/x"⟩, ⟨7, "B/y"⟩, ⟨9, "A/x"⟩] 9 = ["A/x"] ∧
    resolveMatches [⟨7, "A/x"⟩, ⟨7, "B/y"⟩, ⟨9, "A/x"⟩] 42 = [] := by
  have hrepoE : extractString ci.args "repo" = "" := by
    unfold extractString
    rw [hrepo]
  have hnE : extractPRNumber ci.args = n := by
    unfold extractPRNumber
    rw [hn]
  refine ⟨?_, ?_, by decide, by decide, by decide⟩
  · intro h
    have hroute := route_getComments env st ci hpend h
    have hmiss := getCommentsBranch_missing env st ci.args n refs hrepoE hnE hn0 hrefs
    refine ⟨fun hms => ?_, fun only hms hone1 hone2 => ?_, fun r1 r2 rest hms => ?_⟩
    · rw [hroute, hmiss.1 hms, finishGetComments_norepo env st ci.args n hn0]
    · rw [hroute, hmiss.2.1 only hms,
        finishGetComments_dispatch env st ci.args only n cs hone1 hone2 hn0 htok hcs]
    · rw [hroute, hmiss.2.2 r1 r2 rest hms]
  · intro h
    have hroute := route_merge env st ci hpend h
    have hmiss := mergeBranch_missing env st ci.args n refs hrepoE hnE hn0 hrefs
    refine ⟨fun hms => ?_, fun only hms hone1 => ?_, fun r1 r2 rest hms => ?_⟩
    · rw [hroute, hmiss.1 hms, finishMerge_norepo env st ci.args n _ hn0]
    · rw [hroute, hmiss.2.1 only hms,
        finishMerge_dispatch env st ci.args only n _ hone1 hn0 htok hmg]
    · rw [hroute, hmiss.2.2 r1 r2 rest hms]

/-- Witness for C2 on the spec's concrete cache: reference 7 is ambiguous
between A/x and B/y, the targeted question names both, and the pending
intent keeps the number. -/
theorem ambiguity_resolution_witness :
    (("get_pr_comments" : String) = "get_pr_comments") ∧
    (handleWithArgs
      ⟨"tok", "", Except.ok [], Except.ok [], Except.ok [], Except.ok ()⟩
      ⟨[], none, some [⟨7, "A/x"⟩, ⟨7, "B/y"⟩, ⟨9, "A/x"⟩], ""⟩
      ⟨"get_pr_comments", [("pr_number", Value.num 7)], ""⟩).reply =
      "Did you mean PR 7 in A/x or B/y?" ∧
    (handleWithArgs
      ⟨"tok", "", Except.ok [], Except.ok [], Except.ok [], Except.ok ()⟩
      ⟨[], none, some [⟨7, "A/x"⟩, ⟨7, "B/y"⟩, ⟨9, "A/x"⟩], ""⟩
      ⟨"get_pr_comments", [("pr_number", Value.num 7)], ""⟩).state.pending =
      some ("get_pr_comments",
        mapSet [("pr_number", Value.num 7)] "pr_number" (Value.num 7)) ∧
    (handleWithArgs
      ⟨"tok", "", Except.ok [], Except.ok [], Except.ok [], Except.ok ()⟩
      ⟨[], none, some [⟨7, "A/x"⟩, ⟨7, "B/y"⟩, ⟨9, "A/x"⟩], ""⟩
      ⟨"get_pr_comments", [("pr_number", Value.num 9)], ""⟩).intent =
      some ⟨"show_comments", Payload.showComments "A/x" 9 []⟩ ∧
    (handleWithArgs
      ⟨"tok", "", Except.ok [], Except.ok [], Except.ok [], Except.ok ()⟩
      ⟨[], none, some [⟨7, "A/x"⟩, ⟨7, "B/y"⟩, ⟨9, "A/x"⟩], ""⟩
      ⟨"get_pr_comments", [("pr_number", Value.num 42)], ""⟩).reply =
      "Which repo is PR 42 in?" := by
  have h7 := ambiguity_resolution
    ⟨"tok", "", Except.ok [], Except.ok [], Except.ok [], Except.ok ()⟩
    ⟨[], none, some [⟨7, "A/x"⟩, ⟨7, "B/y"⟩, ⟨9, "A/x"⟩], ""⟩
    ⟨"get_pr_comments", [("pr_number", Value.num 7)], ""⟩
    7 [⟨7, "A/x"⟩, ⟨7, "B/y"⟩, ⟨9, "A/x"⟩] [] rfl rfl rfl (by decide) rfl (by decide)
    rfl rfl
  have h9 := ambiguity_resolution
    ⟨"tok", "", Except.ok [], Except.ok [], Except.ok [], Except.ok ()⟩
    ⟨[], none, some [⟨7, "A/x"⟩, ⟨7, "B/y"⟩, ⟨9, "A/x"⟩], ""⟩
    ⟨"get_pr_comments", [("pr_number", Value.num 9)], ""⟩
    9 [⟨7, "A/x"⟩, ⟨7, "B/y"⟩, ⟨9, "A/x"⟩] [] rfl rfl rfl (by decide) rfl (by decide)
    rfl rfl
  have h42 := ambiguity_resolution
    ⟨"tok", "", Except.ok [], Except.ok [], Except.ok [], Except.ok ()⟩
    ⟨[], none, some [⟨7, "A/x"⟩, ⟨7, "B/y"⟩, ⟨9, "A/x"⟩], ""⟩
    ⟨"get_pr_comments", [("pr_number", Value.num 42)], ""⟩
    42 [⟨7, "A/x"⟩, ⟨7, "B/y"⟩, ⟨9, "A/x"⟩] [] rfl rfl rfl (by decide) rfl (by decide)
    rfl rfl
  refine ⟨rfl, ?_, ?_, ?_, ?_⟩
  · rw [(h7.1 rfl).2.2 "A/x" "B/y" [] (by decide)]
    decide
  · rw [(h7.1 rfl).2.2 "A/x" "B/y" [] (by decide)]
  · rw [(h9.1 rfl).2.1 "A/x" (by decide) (by decide) (by decide)]
  · rw [(h42.1 rfl).1 (by decide)]
    decide

/-! The handler only ever stores pending intents with a non-empty type, so
the non-empty-type hypothesis of the slot-filling theorem is invariant. -/

theorem finishGetComments_pending_ne (env : Env) (st : SessionState) (margs : ArgMap)
    (repo : String) (n : Int)
    (hst : ∀ t a, st.pending = some (t, a) → t ≠ "") :
    ∀ t a, (finishGetComments env st margs repo n).state.pending = some (t, a) → t ≠ "" := by
  intro t a
  simp only [finishGetComments]
  split
  · intro h
    simp only [Option.some.injEq, Prod.mk.injEq] at h
    rw [← h.1]
    decide
  · split
    · intro h
      simp only [Option.some.injEq, Prod.mk.injEq] at h
      rw [← h.1]
      decide
    · split
      · intro h
        simp only [Option.some.injEq, Prod.mk.injEq] at h
        rw [← h.1]
        decide
      · split
        · intro h
          exact hst t a h
        · split
          · intro h
            exact hst t a h
          · intro h
            simp at h

theorem finishMerge_pending_ne (env : Env) (st : SessionState) (margs : ArgMap)
    (repo : String) (n : Int) (method : String)
    (hst : ∀ t a, st.pending = some (t, a) → t ≠ "") :
    ∀ t a, (finishMerge env st margs repo n method).state.pending = some (t, a) → t ≠ "" := by
  intro t a
  simp only [finishMerge]
  split
  · intro h
    simp only [Option.some.injEq, Prod.mk.injEq] at h
    rw [← h.1]
    decide
  · split
    · intro h
      simp only [Option.some.injEq, Prod.mk.injEq] at h
      rw [← h.1]
      decide
    · split
      · intro h
        simp only [Option.some.injEq, Prod.mk.injEq] at h
        rw [← h.1]
        decide
      · split
        · intro h
          exact hst t a h
        · split
          · intro h
            exact hst t a h
          · intro h
            simp at h

/-- Invariant: if every pending intent of the session has a non-empty type,
the same holds after any handleWithArgs turn. -/
theorem pending_type_ne_invariant (env : Env) (st : SessionState) (ci : ClassifiedIntent)
    (hst : ∀ t a, st.pending = some (t, a) → t ≠ "") :
    ∀ t a, (handleWithArgs env st ci).state.pending = some (t, a) → t ≠ "" := by
  intro t a
  show (routeIntent env st ci
    (mergeWithPending ci.typ ci.args st.pending)).state.pending = some (t, a) → t ≠ ""
  unfold routeIntent
  split
  · simp only [listBranch]
    split
    · intro h
      exact hst t a h
    · split
      · intro h
        exact hst t a h
      · intro h
        simp at h
  · split
    · simp only [getCommentsBranch]
      split
      · split
        · split
          · exact finishGetComments_pending_ne env st _ _ _ hst t a
          · exact finishGetComments_pending_ne env st _ _ _ hst t a
          · intro h
            simp only [Option.some.injEq, Prod.mk.injEq] at h
            rw [← h.1]
            decide
        · exact finishGetComments_pending_ne env st _ _ _ hst t a
      · exact finishGetComments_pending_ne env st _ _ _ hst t a
    · split
      · simp only [mergeBranch]
        split
        · split
          · split
            · exact finishMerge_pending_ne env st _ _ _ _ hst t a
            · exact finishMerge_pending_ne env st _ _ _ _ hst t a
            · intro h
              simp only [Option.some.injEq, Prod.mk.injEq] at h
              rw [← h.1]
              decide
          · exact finishMerge_pending_ne env st _ _ _ _ hst t a
        · exact finishMerge_pending_ne env st _ _ _ _ hst t a
      · split
        · simp only [clarifyBranch]
          split
          · split
            · intro h
              simp only [Option.some.injEq, Prod.mk.injEq] at h
              rw [← h.1]
              assumption
            · intro h
              exact hst t a h
          · intro h
            exact hst t a h
        · split
          · intro h
            simp only [notImplementedBranch] at h
            simp at h
          · intro h
            exact hst t a h

end Zana
